import Mathlib

/-!
Verification development for the form-definition and report-validation
module of the resq_wp4_validation repository (src/form_definition.py).

The Python module is shallowly embedded below.  Python runtime values
(JSON data, report fields, schema nodes) are modelled by the mutual
inductive type `JVal`; Python dictionaries are modelled as key-unique
association lists preserving insertion order, and Python sets of options
as lists preserving insertion order with membership up to Python
equality.  Python floats are modelled as rationals together with the two
infinities (no NaN, no rounding: the module only ever compares bounds
and tests types, so rational arithmetic is exact for every value the
code manipulates).  Digits are modelled as ASCII digits.
-/

/-- Numeric values that can appear as a minimum or maximum bound of a
FormInteger or FormNumber: Python ints, finite floats (as rationals),
and the float infinities produced by the merge in
FormDefinition._add_options. -/
inductive PyNum where
  | int (n : Int)
  | rat (q : Rat)
  | ninf
  | pinf
deriving DecidableEq, Repr

/-- Python numeric comparison a <= b over ints, floats and infinities. -/
def pnLE : PyNum → PyNum → Bool
  | .ninf, _ => true
  | _, .pinf => true
  | .pinf, _ => false
  | _, .ninf => false
  | .int a, .int b => decide (a ≤ b)
  | .int a, .rat b => decide ((a : Rat) ≤ b)
  | .rat a, .int b => decide (a ≤ (b : Rat))
  | .rat a, .rat b => decide (a ≤ b)

/-- Python min(a, b): returns a when a <= b (ties keep the first
argument, as Python does). -/
def pnMin (a b : PyNum) : PyNum := if pnLE a b then a else b

/-- Python max(a, b): returns b only when a < b (ties keep the first
argument, as Python does). -/
def pnMax (a b : PyNum) : PyNum := if pnLE b a then a else b

/-- Python truthiness of a number: zero is falsy, everything else
(including the infinities) is truthy. -/
def pnTruthy : PyNum → Bool
  | .int n => decide (n ≠ 0)
  | .rat q => decide (q ≠ 0)
  | .ninf => true
  | .pinf => true

/-- Models the expression `x if x is not None else float(-inf)` used for
the minimum side of the bound merge in FormDefinition._add_options. -/
def orNinf : Option PyNum → PyNum
  | none => .ninf
  | some b => b

/-- Models the expression `x or float(inf)` used for the maximum side of
the bound merge in FormDefinition._add_options: None and falsy numbers
(zero) are replaced by plus infinity. -/
def orInfTruthy : Option PyNum → PyNum
  | none => .pinf
  | some b => if pnTruthy b then b else .pinf

mutual
/-- A Python/JSON value: None, bool, int, float, str, list, dict.
Dictionaries are key-unique association lists in insertion order. -/
inductive JVal where
  | null
  | bool (b : Bool)
  | int (n : Int)
  | float (q : Rat)
  | str (s : String)
  | arr (items : JArr)
  | obj (fields : JObj)
deriving DecidableEq, Repr

/-- A Python list of values. -/
inductive JArr where
  | nil
  | cons (hd : JVal) (tl : JArr)
deriving DecidableEq, Repr

/-- A Python dict, as an association list in insertion order. -/
inductive JObj where
  | nil
  | cons (key : String) (val : JVal) (tl : JObj)
deriving DecidableEq, Repr
end

/-- Converts a modelled Python list to a Lean list. -/
def jarrToList : JArr → List JVal
  | .nil => []
  | .cons x xs => x :: jarrToList xs

/-- Dictionary lookup (`key in d` / `d[key]` / `d.get(key)`). -/
def jobjFind : JObj → String → Option JVal
  | .nil, _ => none
  | .cons k v tl, key => if k = key then some v else jobjFind tl key

/-- Dictionary update `d[key] = v`: overwrites the first binding of the
key, or appends a new binding. -/
def jobjSet : JObj → String → JVal → JObj
  | .nil, key, v => .cons key v .nil
  | .cons k w tl, key, v =>
      if k = key then .cons k v tl else .cons k w (jobjSet tl key v)

/-- The numeric value of a Python value, when it is numeric.  Booleans
are numeric because bool is a subtype of int in Python (True == 1,
False == 0). -/
def ratOf : JVal → Option Rat
  | .bool b => some (if b then 1 else 0)
  | .int n => some (n : Rat)
  | .float q => some q
  | _ => none

mutual
/-- Python equality `==` between values: numeric values compare by
value across bool/int/float, strings by content, None only to None,
lists elementwise.  Dict equality is modelled shallowly as False; the
module never compares dicts for equality. -/
def pyEq : JVal → JVal → Bool
  | .arr xs, .arr ys => pyEqArr xs ys
  | a, b =>
      match ratOf a, ratOf b with
      | some x, some y => decide (x = y)
      | _, _ =>
          match a, b with
          | .str s, .str t => decide (s = t)
          | .null, .null => true
          | _, _ => false

/-- Python elementwise equality of lists. -/
def pyEqArr : JArr → JArr → Bool
  | .nil, .nil => true
  | .cons x xs, .cons y ys => pyEq x y && pyEqArr xs ys
  | _, _ => false
end

/-- The int value of a Python value that passes `isinstance(var, int)`:
ints themselves and booleans (bool is a subtype of int). -/
def intValOf : JVal → Option Int
  | .int n => some n
  | .bool b => some (if b then 1 else 0)
  | _ => none

/- ### Character-level helpers for the strptime-based parsers -/

/-- Splits a character list on a separator character, like Python
str.split(sep) with a one-character separator: the empty input yields
one empty field. -/
def splitOnChar (c : Char) : List Char → List (List Char)
  | [] => [[]]
  | x :: xs =>
      let r := splitOnChar c xs
      if x = c then [] :: r
      else
        match r with
        | f :: rest => (x :: f) :: rest
        | [] => [[x]]

/-- Numeric value of a list of decimal digit characters. -/
def digitsVal : List Char → Nat
  | [] => 0
  | c :: cs => digitsVal cs + c.toNat.sub 48 * 10 ^ cs.length

/-- True when every character is an ASCII decimal digit. -/
def allDigits (cs : List Char) : Bool := cs.all (fun c => c.isDigit)

/-- Parses a field of exactly four digits, as the %Y directive of
datetime.strptime does. -/
def parse4 (cs : List Char) : Option Nat :=
  if cs.length = 4 ∧ allDigits cs then some (digitsVal cs) else none

/-- Parses a one- or two-digit field whose value lies in [lo, hi], as
the %m/%d/%H/%M/%S directives of datetime.strptime do (zero padding is
optional, value ranges are enforced by the directive regex). -/
def parse2 (lo hi : Nat) (cs : List Char) : Option Nat :=
  if (cs.length = 1 ∨ cs.length = 2) ∧ allDigits cs then
    let v := digitsVal cs
    if lo ≤ v ∧ v ≤ hi then some v else none
  else none

/-- Gregorian leap-year test, as datetime uses. -/
def isLeap (y : Nat) : Bool :=
  y % 4 = 0 && (y % 100 ≠ 0 || y % 400 = 0)

/-- Number of days in a month of a year, as datetime uses. -/
def daysInMonth (y m : Nat) : Nat :=
  if m = 2 then (if isLeap y then 29 else 28)
  else if m = 4 ∨ m = 6 ∨ m = 9 ∨ m = 11 then 30
  else 31

/-- The validation performed by the datetime constructor after strptime
has matched the directive regexes: the year must be at least 1 (MINYEAR)
and the day must exist in the month.  The four-digit year is at most
9999, so MAXYEAR never rejects. -/
def realDate (y m d : Nat) : Bool :=
  1 ≤ y && 1 ≤ m && m ≤ 12 && 1 ≤ d && d ≤ daysInMonth y m

/-- Syntactic match of datetime.strptime(s, "%Y-%m-%d"): exactly three
dash-separated fields, a four-digit year, a one- or two-digit month in
1..12 and a one- or two-digit day in 1..31. -/
def dateParse (cs : List Char) : Option (Nat × Nat × Nat) :=
  match splitOnChar '-' cs with
  | [yf, mf, df] =>
      match parse4 yf, parse2 1 12 mf, parse2 1 31 df with
      | some y, some m, some d => some (y, m, d)
      | _, _, _ => none
  | _ => none

/-- Syntactic and semantic match of strptime "%H:%M:%S": three
colon-separated fields, hour in 0..23, minute and second in 0..59. -/
def timeParseOK (cs : List Char) : Bool :=
  match splitOnChar ':' cs with
  | [hf, mf, sf] =>
      (parse2 0 23 hf).isSome && (parse2 0 59 mf).isSome && (parse2 0 59 sf).isSome
  | _ => false

/- ### Domain value types (FormDate, FormTime, FormDateTime, FormString,
FormInteger, FormNumber) -/

/-- FormDate.is_valid: the value is a string that strptime parses under
"%Y-%m-%d" and that the datetime constructor accepts as a real calendar
date (strptime returns a datetime, which is always truthy). -/
def formDate_is_valid (var : JVal) : Bool :=
  match var with
  | .str s =>
      match dateParse s.data with
      | some (y, m, d) => realDate y m d
      | none => false
  | _ => false

/-- FormTime.is_valid: the value is a string matching "%H:%M:%S". -/
def formTime_is_valid (var : JVal) : Bool :=
  match var with
  | .str s => timeParseOK s.data
  | _ => false

/-- FormDateTime.is_valid: the value is a string matching
"%Y-%m-%dT%H:%M:%S".  The literal T can occur nowhere else in a match,
so the string splits into a date part and a time part. -/
def formDateTime_is_valid (var : JVal) : Bool :=
  match var with
  | .str s =>
      match splitOnChar 'T' s.data with
      | [df, tf] =>
          (match dateParse df with
           | some (y, m, d) => realDate y m d
           | none => false) && timeParseOK tf
      | _ => false
  | _ => false

/-- FormString.is_valid: isinstance(var, str). -/
def formString_is_valid (var : JVal) : Bool :=
  match var with
  | .str _ => true
  | _ => false

/-- FormInteger.is_valid: isinstance(var, int) (which admits booleans,
a subtype of int, and rejects floats such as 5.0) and the bounds hold;
an absent (None) bound is not checked. -/
def formInteger_is_valid (minimum maximum : Option PyNum) (var : JVal) : Bool :=
  match intValOf var with
  | some n =>
      (match minimum with
       | none => true
       | some b => pnLE b (.int n)) &&
      (match maximum with
       | none => true
       | some b => pnLE (.int n) b)
  | none => false

/-- FormNumber.is_valid: isinstance(var, (float, int)) (booleans again
included) and the bounds hold. -/
def formNumber_is_valid (minimum maximum : Option PyNum) (var : JVal) : Bool :=
  match ratOf var with
  | some q =>
      (match minimum with
       | none => true
       | some b => pnLE b (.rat q)) &&
      (match maximum with
       | none => true
       | some b => pnLE (.rat q) b)
  | none => false

/-- One member of a possible-options set: either a literal value
(True/False from boolean leaves, None from null leaves, enum literals)
or an instance of one of the Form* domain classes. -/
inductive OptVal where
  | lit (v : JVal)
  | fint (minimum maximum : Option PyNum)
  | fnum (minimum maximum : Option PyNum)
  | fstr
  | fdate
  | ftime
  | fdatetime
deriving DecidableEq, Repr

/-- The data_type class attribute of a typed option, none for literals. -/
def optDataType : OptVal → Option String
  | .fint _ _ => some "integer"
  | .fnum _ _ => some "number"
  | .fstr => some "string"
  | .fdate => some "date"
  | .ftime => some "time"
  | .fdatetime => some "date-time"
  | .lit _ => none

/-- is_valid dispatch over the typed options (literals have none). -/
def opt_is_valid : OptVal → JVal → Bool
  | .lit _, _ => false
  | .fint mn mx, v => formInteger_is_valid mn mx v
  | .fnum mn mx, v => formNumber_is_valid mn mx v
  | .fstr, v => formString_is_valid v
  | .fdate, v => formDate_is_valid v
  | .ftime, v => formTime_is_valid v
  | .fdatetime, v => formDateTime_is_valid v

/- ### The flattener state and FormDefinition._add_options -/

/-- Association-list lookup over string keys. -/
def assocFind {α : Type} : List (String × α) → String → Option α
  | [], _ => none
  | (k, v) :: tl, key => if k = key then some v else assocFind tl key

/-- Association-list update: overwrite the first binding or append. -/
def assocSet {α : Type} : List (String × α) → String → α → List (String × α)
  | [], key, v => [(key, v)]
  | (k, w) :: tl, key, v =>
      if k = key then (k, v) :: tl else (k, w) :: assocSet tl key v

/-- The state built by FormDefinition.__init__: the parsed schema, the
set of question ids and the possible-options mapping.  Sets and dicts
are lists in insertion order. -/
structure FDState where
  schema : JVal
  question_ids : List String
  possible_options : List (String × List OptVal)
deriving DecidableEq, Repr

instance : Inhabited FDState := ⟨⟨.null, [], []⟩⟩

/-- Set insertion for question_ids. -/
def insertStr (x : String) (l : List String) : List String :=
  if x ∈ l then l else x :: l

/-- The generator condition of FormDefinition._add_options:
isinstance(opt, type(new_option)) and not isinstance(opt, str).  The
first argument is the new option, the second a candidate already in the
set.  Booleans are instances of int, so an int literal matches a stored
boolean literal; new string literals never match because of the
`not isinstance(opt, str)` conjunct. -/
def matchesType : OptVal → OptVal → Bool
  | .fint _ _, .fint _ _ => true
  | .fnum _ _, .fnum _ _ => true
  | .fstr, .fstr => true
  | .fdate, .fdate => true
  | .ftime, .ftime => true
  | .fdatetime, .fdatetime => true
  | .lit (.bool _), .lit (.bool _) => true
  | .lit (.int _), .lit (.int _) => true
  | .lit (.int _), .lit (.bool _) => true
  | .lit (.float _), .lit (.float _) => true
  | .lit .null, .lit .null => true
  | _, _ => false

/-- Python truthiness of an option value, used by the
`elif not existing_option` test in FormDefinition._add_options.
Form* instances are always truthy; literal False, 0, 0.0, the empty
string and None are falsy. -/
def truthyOpt : OptVal → Bool
  | .lit (.bool b) => b
  | .lit (.int n) => decide (n ≠ 0)
  | .lit (.float q) => decide (q ≠ 0)
  | .lit (.str s) => decide (s ≠ "")
  | .lit .null => false
  | .lit (.arr .nil) => false
  | .lit (.arr _) => true
  | .lit (.obj .nil) => false
  | .lit (.obj _) => true
  | _ => true

/-- Python set equality test used by set.add: literals compare by
Python ==; Form* instances have no __eq__ and compare by identity, so a
freshly constructed instance is never already in the set. -/
def pyEqOpt : OptVal → OptVal → Bool
  | .lit a, .lit b => pyEq a b
  | _, _ => false

/-- set.add(new_option): a no-op when an equal element is present. -/
def addIfAbsent (cur : List OptVal) (newOp : OptVal) : List OptVal :=
  if cur.any (fun op => pyEqOpt newOp op) then cur else cur ++ [newOp]

/-- Replaces the first element satisfying the test (Python mutates the
object returned by next(...) in place, leaving it at its position). -/
def replaceFirst : List OptVal → (OptVal → Bool) → OptVal → List OptVal
  | [], _, _ => []
  | x :: xs, p, y => if p x then y :: xs else x :: replaceFirst xs p y

/-- The body of the `for new_option in options` loop of
FormDefinition._add_options for a single new option: find an existing
option of the same non-str type; merge bounds into it when the new
option is a FormInteger or FormNumber (minimum takes the running min,
treating None as minus infinity; maximum takes the running max via
`x or inf`, treating None and zero as plus infinity); otherwise add the
new option only when no existing match was found or the match is falsy. -/
def addOne (cur : List OptVal) (newOp : OptVal) : List OptVal :=
  match cur.find? (fun op => matchesType newOp op) with
  | some ex =>
      match newOp, ex with
      | .fint nmin nmax, .fint emin emax =>
          replaceFirst cur (fun op => matchesType (.fint nmin nmax) op)
            (.fint (some (pnMin (orNinf emin) (orNinf nmin)))
                   (some (pnMax (orInfTruthy emax) (orInfTruthy nmax))))
      | .fnum nmin nmax, .fnum emin emax =>
          replaceFirst cur (fun op => matchesType (.fnum nmin nmax) op)
            (.fnum (some (pnMin (orNinf emin) (orNinf nmin)))
                   (some (pnMax (orInfTruthy emax) (orInfTruthy nmax))))
      | _, _ => if truthyOpt ex then cur else addIfAbsent cur newOp
  | none => addIfAbsent cur newOp

/-- FormDefinition._add_options: ensures the possible-options entry for
the question id exists (creating an empty one when absent, even when no
options follow) and folds the new options into it. -/
def add_options (qid : String) (opts : List OptVal) (s : FDState) : FDState :=
  let cur := (assocFind s.possible_options qid).getD []
  { s with possible_options := assocSet s.possible_options qid (opts.foldl addOne cur) }

/- ### FormDefinition._get_data_options and _handle_string_format -/

/-- Reads a numeric bound from a schema node, as
data_property.get("minimum") / .get("maximum") feeding the FormInteger
or FormNumber constructor.  A JSON null behaves as an absent key (the
attribute is None either way).  Non-numeric bound values are not
modelled: the code would store them and fail later at comparison time,
and no schema in scope declares one. -/
def getBound (d : JObj) (key : String) : Option PyNum :=
  match jobjFind d key with
  | some (.int n) => some (.int n)
  | some (.float q) => some (.rat q)
  | some (.bool b) => some (.int (if b then 1 else 0))
  | _ => none

/-- Dedup-inserts a literal enum member, as building the enum_options
set does (membership by Python ==). -/
def addLit (acc : List OptVal) (v : JVal) : List OptVal :=
  if acc.any (fun op => pyEqOpt (.lit v) op) then acc else acc ++ [.lit v]

/-- Collects the literal members of an enum declaration into a set.
Lists and dicts are unhashable in Python and make set.add raise, which
aborts construction. -/
def litsOfEnum : List JVal → List OptVal → Except String (List OptVal)
  | [], acc => .ok acc
  | v :: vs, acc =>
      match v with
      | .arr _ => .error "unhashable type in enum"
      | .obj _ => .error "unhashable type in enum"
      | _ => litsOfEnum vs (addLit acc v)

/-- FormDefinition._handle_string_format: a recognised "format" value
takes precedence; otherwise an "enum" key yields its members as
literals (Python iterates strings by character and dicts by key); with
neither, a plain FormString. -/
def handle_string_format (d : JObj) : Except String (List OptVal) :=
  match jobjFind d "format" with
  | some (.str "date") => .ok [.fdate]
  | some (.str "time") => .ok [.ftime]
  | some (.str "date-time") => .ok [.fdatetime]
  | _ =>
      match jobjFind d "enum" with
      | some (.arr items) => litsOfEnum (jarrToList items) []
      | some (.str s) => litsOfEnum (s.data.map (fun c => JVal.str (String.mk [c]))) []
      | some (.obj fields) => litsOfEnum (jobjKeysAsVals fields) []
      | some _ => .error "enum value is not iterable"
      | none => .ok [.fstr]
where
  /-- Iterating a Python dict yields its keys. -/
  jobjKeysAsVals : JObj → List JVal
    | .nil => []
    | .cons k _ tl => .str k :: jobjKeysAsVals tl

/-- FormDefinition._get_data_options: options for one declared type
name.  An unsupported type name raises ValueError, which aborts
construction. -/
def get_data_options (dtype : JVal) (d : JObj) : Except String (List OptVal) :=
  match dtype with
  | .str "boolean" => .ok [.lit (.bool false), .lit (.bool true)]
  | .str "integer" => .ok [.fint (getBound d "minimum") (getBound d "maximum")]
  | .str "number" => .ok [.fnum (getBound d "minimum") (getBound d "maximum")]
  | .str "null" => .ok [.lit .null]
  | .str "string" => handle_string_format d
  | _ => .error "unsupported data type"

/- ### FormDefinition._extract_question_ids -/

/-- Extends the accumulated dot path,
`f"{base_id}.{prop_id}" if base_id else prop_id`. -/
def extendPath (base pid : String) : String :=
  if base = "" then pid else base ++ "." ++ pid

/-- Adds options for every declared type of a node and reports the
first unsupported type.  Mirrors the `for dtype in data_types` loop of
_extract_question_ids. -/
def addAllTypes (all : JObj) (base : String) : List JVal → FDState → Except String FDState
  | [], s => .ok s
  | t :: ts, s =>
      match get_data_options t all with
      | .error e => .error e
      | .ok opts => addAllTypes all base ts (add_options base opts s)

/-- The declared-type list: `data["type"] if isinstance(data["type"],
list) else [data["type"]]`. -/
def typeList : JVal → List JVal
  | .arr items => jarrToList items
  | t => [t]

/-- The `elif "enum" in data` part of the registration block: register
the string-handled options and add the path to question_ids. -/
def registerEnumBranch (all : JObj) (base : String) (s : FDState) : Except String FDState :=
  match jobjFind all "enum" with
  | some _ =>
      match get_data_options (.str "string") all with
      | .error e => .error e
      | .ok opts =>
          let s1 := add_options base opts s
          .ok { s1 with question_ids := insertStr base s1.question_ids }
  | none => .ok s

/-- The registration block that runs once per key of a dict node inside
_extract_question_ids: a node with a "type" other than the exact string
"object" registers options for each declared type and adds the path to
question_ids; failing that, a node with an "enum" key registers its
string-handled options and adds the path. -/
def registerBlock (all : JObj) (base : String) (s : FDState) : Except String FDState :=
  match jobjFind all "type" with
  | some t =>
      if t = .str "object" then registerEnumBranch all base s
      else
        match addAllTypes all base (typeList t) s with
        | .error e => .error e
        | .ok s1 => .ok { s1 with question_ids := insertStr base s1.question_ids }
  | none => registerEnumBranch all base s

mutual
/-- FormDefinition._extract_question_ids.  A dict loops over its keys:
the "properties" key descends into each property with an extended path,
any other key recurses into its value with the same path, and after
each key the registration block runs on the whole dict.  A list
recurses into its items; scalars do nothing. -/
def extract_question_ids : JVal → String → FDState → Except String FDState
  | .obj fields, base, s => extractFields fields fields base s
  | .arr items, base, s => extractArr items base s
  | _, _, s => .ok s

/-- The `for key, value in data.items()` loop; the first argument is
the whole dict, the second the keys still to process. -/
def extractFields : JObj → JObj → String → FDState → Except String FDState
  | _, .nil, _, s => .ok s
  | all, .cons k v tl, base, s =>
      match (if k = "properties" then extractProps v base s
             else extract_question_ids v base s) with
      | .error e => .error e
      | .ok s1 =>
          match registerBlock all base s1 with
          | .error e => .error e
          | .ok s2 => extractFields all tl base s2

/-- The `for prop_id in value` descent under a "properties" key.  The
code assumes the value is a mapping; any other value would make the
iteration or indexing fail, which aborts construction. -/
def extractProps : JVal → String → FDState → Except String FDState
  | .obj pfields, base, s => extractPropsList pfields base s
  | _, _, _ => .error "properties value is not a mapping"

/-- Iterates the properties of a container, descending with extended
paths. -/
def extractPropsList : JObj → String → FDState → Except String FDState
  | .nil, _, s => .ok s
  | .cons pid pv tl, base, s =>
      match extract_question_ids pv (extendPath base pid) s with
      | .error e => .error e
      | .ok s1 => extractPropsList tl base s1

/-- The `elif isinstance(data, list)` branch: recurse into each item
with the same path. -/
def extractArr : JArr → String → FDState → Except String FDState
  | .nil, _, s => .ok s
  | .cons x xs, base, s =>
      match extract_question_ids x base s with
      | .error e => .error e
      | .ok s1 => extractArr xs base s1
end

/-- FormDefinition.__init__ with an already parsed schema: starts from
empty question_ids and possible_options and walks the schema from the
empty base path. -/
def formDefinitionInit (schema : JVal) : Except String FDState :=
  extract_question_ids schema "" ⟨schema, [], []⟩

/- ### Report and dataset validation -/

/-- One answer of a QA pair: {answer_type, text, answer_start}.  The
text and start fields are dynamically typed in the data, so they are
modelled as raw values; answer_type is compared against the strings
"single" and "complex" (any other value falls to the error branch, so a
string field loses no generality). -/
structure Answer where
  answer_type : String
  text : JVal
  answer_start : JVal
deriving DecidableEq, Repr

/-- One question-answer pair of a paragraph. -/
structure QA where
  id : String
  question_id : String
  enumeration_value_id : JVal
  answers : List Answer
deriving DecidableEq, Repr

/-- One paragraph: a context string and its QA pairs. -/
structure Paragraph where
  context : String
  qas : List QA
deriving DecidableEq, Repr

/-- One report of a dataset. -/
structure Report where
  report_id : String
  paragraphs : List Paragraph
deriving DecidableEq, Repr

/-- A dataset: the list under the "data" key. -/
structure Dataset where
  data : List Report
deriving DecidableEq, Repr

/-- The failures validate_report can produce.  All constructors up to
invalidEnumValue model ValueError raises; validationError models the
jsonschema ValidationError; otherError models every other exception
class (TypeError, AttributeError, KeyError), which validate_dataset
does not catch. -/
inductive VErr where
  | paragraphCount (n : Nat)
  | badIdFormat (id expected : String)
  | duplicateId (id : String)
  | unknownQuestionId (qid : String)
  | badAnswerKind (kind : String)
  | badAnswerFieldTypes
  | badAnswerBounds
  | evidenceMismatch (text : String) (start : Int)
  | badComplexShape
  | badComplexLengths
  | invalidEnumValue (qid : String)
  | validationError (msg : String)
  | otherError (msg : String)
deriving DecidableEq, Repr

/-- Whether validate_dataset catches the failure: it catches exactly
ValidationError and ValueError. -/
def isCaught : VErr → Bool
  | .otherError _ => false
  | _ => true

/-- The external structural validator (jsonschema.validate), an opaque
dependency: given an instance and the schema it either passes or
raises a ValidationError carrying a message. -/
def StructuralValidator : Type := JVal → JVal → Except String Unit

/-- FormDefinition._validate_qa: id format, dataset-global uniqueness
against the threaded used_ids set, and question_id membership; a QA
that passes has its id added to the set, a QA that fails leaves the set
unchanged. -/
def validate_qa (fd : FDState) (qa : QA) (rep : Report) (usedIds : List String) :
    Except VErr Unit × List String :=
  let expected := rep.report_id ++ "_" ++ qa.question_id
  if qa.id ≠ expected then (.error (.badIdFormat qa.id expected), usedIds)
  else if qa.id ∈ usedIds then (.error (.duplicateId qa.id), usedIds)
  else if qa.question_id ∉ fd.question_ids then (.error (.unknownQuestionId qa.question_id), usedIds)
  else (.ok (), insertStr qa.id usedIds)

/-- The `for qa in paragraph["qas"]: self._validate_qa(...)` loop: the
first failure aborts the loop, but ids accepted before it stay in the
set. -/
def validateQAList (fd : FDState) (rep : Report) :
    List QA → List String → Except VErr Unit × List String
  | [], usedIds => (.ok (), usedIds)
  | qa :: rest, usedIds =>
      match validate_qa fd qa rep usedIds with
      | (.error e, u) => (.error e, u)
      | (.ok _, u) => validateQAList fd rep rest u

/-- Python slice context[start : start + n] of a character list, for a
non-negative start. -/
def pySlice (cs : List Char) (start : Int) (n : Nat) : List Char :=
  (cs.drop start.toNat).take n

/-- FormDefinition._validate_single_answer: the text must be a str and
the start an int (booleans count as ints); the text must be non-empty
and the start non-negative; the context slice at the start must equal
the text exactly. -/
def validate_single_answer (text astart : JVal) (context : String) : Except VErr Unit :=
  match text, intValOf astart with
  | .str s, some n =>
      if ¬(1 ≤ s.length ∧ 0 ≤ n) then .error .badAnswerBounds
      else if pySlice context.data n s.length ≠ s.data then .error (.evidenceMismatch s n)
      else .ok ()
  | _, _ => .error .badAnswerFieldTypes

/-- The per-pair loop of FormDefinition._validate_complex_answer. -/
def validatePairs (context : String) : List (JVal × JVal) → Except VErr Unit
  | [] => .ok ()
  | (t, st) :: rest =>
      match validate_single_answer t st context with
      | .error e => .error e
      | .ok _ => validatePairs context rest

/-- FormDefinition._validate_complex_answer: text and answer_start must
be lists of equal length greater than one, and every pair must validate
as a single answer against the same context. -/
def validate_complex_answer (text astart : JVal) (context : String) : Except VErr Unit :=
  match text, astart with
  | .arr ts, .arr ss =>
      let tl := jarrToList ts
      let sl := jarrToList ss
      if tl.length ≠ sl.length ∨ tl.length ≤ 1 then .error .badComplexLengths
      else validatePairs context (tl.zip sl)
  | _, _ => .error .badComplexShape

/-- FormDefinition._validate_evidences: dispatch on answer_type for
each answer of a QA. -/
def validate_evidences (qa : QA) (context : String) : Except VErr Unit :=
  go qa.answers
where
  go : List Answer → Except VErr Unit
    | [] => .ok ()
    | a :: rest =>
        match (if a.answer_type = "single" then validate_single_answer a.text a.answer_start context
               else if a.answer_type = "complex" then validate_complex_answer a.text a.answer_start context
               else .error (.badAnswerKind a.answer_type)) with
        | .error e => .error e
        | .ok _ => go rest

/-- The acceptance test of one possible option against an enumeration
value: literal options by Python equality (typed option instances are
never == to a data value), typed options by is_valid. -/
def optAccepts (op : OptVal) (v : JVal) : Bool :=
  match op with
  | .lit w => pyEq v w
  | _ => opt_is_valid op v

/-- FormDefinition._validate_enumeration_value_ids: looks the question
id up in possible_options (a missing key is a KeyError, an uncaught
class) and requires some option to accept the value. -/
def validate_enumeration_value_ids (fd : FDState) (qa : QA) : Except VErr Unit :=
  match assocFind fd.possible_options qa.question_id with
  | none => .error (.otherError "KeyError")
  | some opts =>
      if opts.any (fun op => optAccepts op qa.enumeration_value_id) then .ok ()
      else .error (.invalidEnumValue qa.question_id)

/-- The per-QA loops of stages 3 and 4 of validate_report. -/
def seqEvidences (context : String) : List QA → Except VErr Unit
  | [] => .ok ()
  | qa :: rest =>
      match validate_evidences qa context with
      | .error e => .error e
      | .ok _ => seqEvidences context rest

/-- Stage-4 loop: every QA enumeration value against its options. -/
def seqEnums (fd : FDState) : List QA → Except VErr Unit
  | [] => .ok ()
  | qa :: rest =>
      match validate_enumeration_value_ids fd qa with
      | .error e => .error e
      | .ok _ => seqEnums fd rest

/-- The nested-dict rebuild of FormDefinition._validate_against_schema:
`current = current.setdefault(part, {})` for the leading parts, then
`current[parts[-1]] = value`.  When a leading part is already bound to
a non-dict (a leaf assigned by an earlier QA whose question id is a
strict prefix of this one), the Python code raises a TypeError or
AttributeError; both are modelled as the uncaught error class. -/
def insertPath : JObj → List String → JVal → Except VErr JObj
  | fields, [], _ => .ok fields
  | fields, [last], v => .ok (jobjSet fields last v)
  | fields, k :: rest, v =>
      match jobjFind fields k with
      | some (.obj sub) =>
          match insertPath sub rest v with
          | .error e => .error e
          | .ok sub2 => .ok (jobjSet fields k (.obj sub2))
      | some _ => .error (.otherError "setdefault reached a non-mapping value")
      | none =>
          match insertPath .nil rest v with
          | .error e => .error e
          | .ok sub2 => .ok (jobjSet fields k (.obj sub2))

/-- Builds the resq_form_answers instance from all QA pairs by
splitting each question id on dots. -/
def buildNested : List QA → JObj → Except VErr JObj
  | [], acc => .ok acc
  | qa :: rest, acc =>
      let parts := (splitOnChar '.' qa.question_id.data).map (fun cs => String.mk cs)
      match insertPath acc parts qa.enumeration_value_id with
      | .error e => .error e
      | .ok acc2 => buildNested rest acc2

/-- The validation stages of FormDefinition.validate_report, run over
the working used-ids set (the set the name used_ids refers to after the
rebinding on line 115): exactly one paragraph; then the stage-2
identity/uniqueness loop (which mutates the working set), the stage-3
evidence loop, the stage-4 enumeration loop, and optionally the
stage-5 structural check delegated to the external validator.  The
returned set reflects the mutation performed by stage 2 even when a
later stage fails. -/
def validateReportCore (fd : FDState) (sv : StructuralValidator) (rep : Report)
    (required_fields_validation : Bool) (usedIds : List String) :
    Except VErr Unit × List String :=
  match rep.paragraphs with
  | [p] =>
      match validateQAList fd rep p.qas usedIds with
      | (.error e, u) => (.error e, u)
      | (.ok _, u) =>
          match seqEvidences p.context p.qas with
          | .error e => (.error e, u)
          | .ok _ =>
              match seqEnums fd p.qas with
              | .error e => (.error e, u)
              | .ok _ =>
                  if required_fields_validation then
                    match buildNested p.qas .nil with
                    | .error e => (.error e, u)
                    | .ok inst =>
                        match sv (.obj inst) fd.schema with
                        | .ok _ => (.ok (), u)
                        | .error m => (.error (.validationError m), u)
                  else (.ok (), u)
  | ps => (.error (.paragraphCount ps.length), usedIds)

/-- FormDefinition.validate_report.  Its first statement,
`used_ids = used_ids or set()`, rebinds the parameter name: a falsy
argument (None, or an empty set) is replaced by a fresh local set, so
the ids added during the stages reach the set held by the caller only
when the caller passed a NON-empty set; an empty caller set is left
untouched and the additions go to a local set that is discarded.  The
second component of the result is the caller-supplied set as visible
after the call: the mutated working set when the caller passed a
non-empty set (the same object), and the unchanged empty set
otherwise.  The stages themselves behave identically in both cases,
since the fresh set and the empty caller set have the same contents. -/
def validate_report (fd : FDState) (sv : StructuralValidator) (rep : Report)
    (required_fields_validation : Bool) (usedIds : List String) :
    Except VErr Unit × List String :=
  let r := validateReportCore fd sv rep required_fields_validation usedIds
  (r.1, if usedIds = [] then usedIds else r.2)

/-- The observable outcome of a dataset run: the invalid-report count,
the per-report error log (report id and failure), and the summary
line. -/
structure DatasetOutcome where
  invalid_count : Nat
  errorLog : List (String × VErr)
  summary : String
deriving DecidableEq, Repr

/-- The report loop of FormDefinition.validate_dataset: one shared
used-ids set threads through all reports; ValidationError and
ValueError failures are logged, counted and skipped; any other
exception class propagates and aborts the loop. -/
def validateDataSeq (fd : FDState) (sv : StructuralValidator)
    (required_fields_validation : Bool) (total : Nat) :
    List Report → List String → Nat → List (String × VErr) → Except VErr DatasetOutcome
  | [], _, invalid, log =>
      .ok ⟨invalid, log, s!"{invalid}/{total} reports were invalid"⟩
  | r :: rest, usedIds, invalid, log =>
      match validate_report fd sv r required_fields_validation usedIds with
      | (.ok _, u) => validateDataSeq fd sv required_fields_validation total rest u invalid log
      | (.error e, u) =>
          if isCaught e then
            validateDataSeq fd sv required_fields_validation total rest u
              (invalid + 1) (log ++ [(r.report_id, e)])
          else .error e

/-- FormDefinition.validate_dataset. -/
def validate_dataset (fd : FDState) (sv : StructuralValidator) (dataset : Dataset)
    (required_fields_validation : Bool) : Except VErr DatasetOutcome :=
  validateDataSeq fd sv required_fields_validation dataset.data.length
    dataset.data [] 0 []

/-- FormDefinition.question_includes_datatype on an options list:
"boolean" by membership of True or False (Python set membership, which
uses ==, so numeric literals equal to 1 or 0 also satisfy it); "null"
by membership of None; "enum" by presence of a str instance among the
options (only string literals are str); every other name by presence
of a typed option whose data_type attribute equals it. -/
def optsInclude (opts : List OptVal) (dtype : String) : Bool :=
  if dtype = "boolean" then
    opts.any (fun op => pyEqOpt (.lit (.bool true)) op) ||
    opts.any (fun op => pyEqOpt (.lit (.bool false)) op)
  else if dtype = "null" then
    opts.any (fun op => pyEqOpt (.lit .null) op)
  else if dtype = "enum" then
    opts.any (fun op => match op with | .lit (.str _) => true | _ => false)
  else
    opts.any (fun op => optDataType op = some dtype)

/-- FormDefinition.question_includes_datatype: none models the KeyError
raised when the question id has no possible-options entry. -/
def question_includes_datatype (fd : FDState) (question_id dtype : String) : Option Bool :=
  match assocFind fd.possible_options question_id with
  | none => none
  | some opts => some (optsInclude opts dtype)

/- ### Specification-side characterisations of the flattener -/

/-- Whether the registration block of _extract_question_ids registers
the current path for a dict node: a "type" key with a value other than
the exact string "object" always registers; otherwise an "enum" key
registers. -/
def registersB (all : JObj) : Bool :=
  match jobjFind all "type" with
  | some t => if t = .str "object" then (jobjFind all "enum").isSome else true
  | none => (jobjFind all "enum").isSome

mutual
/-- The set of paths that walking a schema value registers as question
ids: a declaring dict node contributes its own accumulated path, the
"properties" key extends the path for its children, and every other
key and every list item is explored at the same path. -/
def declPaths : JVal → String → List String
  | .obj fields, base => declFields fields fields base
  | .arr items, base => declArr items base
  | _, _ => []

/-- Paths contributed while looping over the keys of a dict. -/
def declFields : JObj → JObj → String → List String
  | _, .nil, _ => []
  | all, .cons k v tl, base =>
      (if k = "properties" then declProps v base else declPaths v base)
        ++ (if registersB all then [base] else [])
        ++ declFields all tl base

/-- Paths contributed below a "properties" key. -/
def declProps : JVal → String → List String
  | .obj pfields, base => declPropsList pfields base
  | _, _ => []

/-- Paths of the individual properties of a container. -/
def declPropsList : JObj → String → List String
  | .nil, _ => []
  | .cons pid pv tl, base =>
      declPaths pv (extendPath base pid) ++ declPropsList tl base

/-- Paths contributed by the items of a list. -/
def declArr : JArr → String → List String
  | .nil, _ => []
  | .cons x xs, base => declPaths x base ++ declArr xs base
end

/-- Node-local condition: the "type" key, when present, is not an empty
list (an empty list registers the path without ever creating a
possible-options entry). -/
def typeKeyOK (d : JObj) : Bool :=
  match jobjFind d "type" with
  | some (.arr .nil) => false
  | _ => true

/-- Node-local condition: the "enum" key, when present, is a non-empty
list (a non-list enum is iterated by character or by key and can be
empty; an empty enum registers an empty possible-options set). -/
def enumKeyOK (d : JObj) : Bool :=
  match jobjFind d "enum" with
  | none => true
  | some (.arr .nil) => false
  | some (.arr _) => true
  | some _ => false

mutual
/-- Every dict node of a schema value satisfies a node-local
condition. -/
def allNodes (p : JObj → Bool) : JVal → Bool
  | .obj fields => p fields && allNodesObj p fields
  | .arr items => allNodesArr p items
  | _ => true

/-- allNodes over the values of a dict. -/
def allNodesObj (p : JObj → Bool) : JObj → Bool
  | .nil => true
  | .cons _ v tl => allNodes p v && allNodesObj p tl

/-- allNodes over the items of a list. -/
def allNodesArr (p : JObj → Bool) : JArr → Bool
  | .nil => true
  | .cons x xs => allNodes p x && allNodesArr p xs
end

/-- The key invariant claimed for the flattener state: every question
id owns a possible-options entry. -/
def keysInv (s : FDState) : Prop :=
  ∀ q ∈ s.question_ids, (assocFind s.possible_options q).isSome

/-- The question id q owns a non-empty possible-options entry. -/
def nonemptyAt (s : FDState) (q : String) : Prop :=
  ∃ l, assocFind s.possible_options q = some l ∧ l ≠ []

/- ### Concrete fixtures used by the counterexamples and witnesses -/

/-- A structural validator that accepts every instance, used where the
structural stage is irrelevant to the scenario. -/
def svOk : StructuralValidator := fun _ _ => .ok ()

/-- Runs the constructor and extracts the state, defaulting on a
construction failure (every fixture below is proved to construct
successfully). -/
def fdOf (schema : JVal) : FDState :=
  match formDefinitionInit schema with
  | .ok s => s
  | .error _ => default

/-- Schema with the single string-typed question q1. -/
def schemaQ1 : JVal :=
  .obj (.cons "properties"
    (.obj (.cons "q1" (.obj (.cons "type" (.str "string") .nil)) .nil)) .nil)

/-- A report whose only QA answers question q1 with a string value and
no evidence spans. -/
def reportR1 : Report := ⟨"R1", [⟨"ctx", [⟨"R1_q1", "q1", .str "v", []⟩]⟩]⟩

/-- The same report twice in one dataset: the second occurrence reuses
the QA id R1_q1. -/
def dsDup : Dataset := ⟨[reportR1, reportR1]⟩

/-- Schema where the question path a is a strict prefix of the question
path a.b: the node at a declares both a type and nested properties. -/
def schemaPrefix : JVal :=
  .obj (.cons "properties"
    (.obj (.cons "a"
      (.obj (.cons "type" (.str "string")
        (.cons "properties"
          (.obj (.cons "b" (.obj (.cons "type" (.str "string") .nil)) .nil)) .nil)))
      .nil)) .nil)

/-- A report answering both a and a.b, in that order, each QA valid
through stages 2 to 4. -/
def reportPrefix : Report :=
  ⟨"R", [⟨"ctx", [⟨"R_a", "a", .str "x", []⟩, ⟨"R_a.b", "a.b", .str "y", []⟩]⟩]⟩

/-- Schema whose node a is a pure container (a "properties" key, no
"type", no "enum") but also carries an additionalProperties key whose
subtree declares a type. -/
def schemaContainer : JVal :=
  .obj (.cons "properties"
    (.obj (.cons "a"
      (.obj (.cons "properties"
        (.obj (.cons "b" (.obj (.cons "type" (.str "string") .nil)) .nil))
        (.cons "additionalProperties" (.obj (.cons "type" (.str "string") .nil)) .nil)))
      .nil)) .nil)

/-- The dict of the node at path a inside schemaContainer. -/
def containerNodeA : JObj :=
  .cons "properties"
    (.obj (.cons "b" (.obj (.cons "type" (.str "string") .nil)) .nil))
    (.cons "additionalProperties" (.obj (.cons "type" (.str "string") .nil)) .nil)

/-- Schema whose question q declares an integer enum. -/
def schemaIntEnum : JVal :=
  .obj (.cons "properties"
    (.obj (.cons "q"
      (.obj (.cons "enum" (.arr (.cons (.int 1) (.cons (.int 2) .nil))) .nil)) .nil)) .nil)

/-- Schema whose question q declares an empty type list. -/
def schemaEmptyType : JVal :=
  .obj (.cons "properties"
    (.obj (.cons "q" (.obj (.cons "type" (.arr .nil) .nil)) .nil)) .nil)

/-- A QA addressing question q of schemaEmptyType. -/
def qaEmptyType : QA := ⟨"R_q", "q", .str "x", []⟩

/-- A report whose QA passes the identity stage but fails the evidence
stage (the text is not at the claimed offset). -/
def reportBadEvidence : Report :=
  ⟨"R1", [⟨"ctx", [⟨"R1_q1", "q1", .str "v", [⟨"single", .str "zzz", .int 0⟩]⟩]⟩]⟩

/- ### Helper lemmas -/

theorem mem_insertStr {q x : String} {l : List String} :
    q ∈ insertStr x l ↔ q = x ∨ q ∈ l := by
  unfold insertStr
  split
  · constructor
    · exact Or.inr
    · rintro (rfl | hq)
      · assumption
      · exact hq
  · exact List.mem_cons

theorem assocFind_assocSet_self {α : Type} (l : List (String × α)) (k : String) (v : α) :
    assocFind (assocSet l k v) k = some v := by
  induction l with
  | nil => simp [assocSet, assocFind]
  | cons hd tl ih =>
      obtain ⟨k0, v0⟩ := hd
      unfold assocSet
      by_cases hk : k0 = k
      · simp [hk, assocFind]
      · simp [hk, assocFind, ih]

theorem assocFind_assocSet_other {α : Type} (l : List (String × α)) (k q : String) (v : α)
    (h : q ≠ k) : assocFind (assocSet l k v) q = assocFind l q := by
  have hkq : ¬k = q := fun hh => h hh.symm
  induction l with
  | nil => simp [assocSet, assocFind, hkq]
  | cons hd tl ih =>
      obtain ⟨k0, v0⟩ := hd
      unfold assocSet
      by_cases hk : k0 = k
      · subst hk
        rw [if_pos rfl]
        show (if k0 = q then some v else assocFind tl q)
          = (if k0 = q then some v0 else assocFind tl q)
        rw [if_neg hkq, if_neg hkq]
      · simp only [hk, if_false, assocFind, ih]

theorem add_options_qids (qid : String) (opts : List OptVal) (s : FDState) :
    (add_options qid opts s).question_ids = s.question_ids := rfl

theorem add_options_schema (qid : String) (opts : List OptVal) (s : FDState) :
    (add_options qid opts s).schema = s.schema := rfl

theorem add_options_find_self (qid : String) (opts : List OptVal) (s : FDState) :
    assocFind (add_options qid opts s).possible_options qid
      = some (opts.foldl addOne ((assocFind s.possible_options qid).getD [])) := by
  unfold add_options
  exact assocFind_assocSet_self _ _ _

theorem add_options_find_other (qid : String) (opts : List OptVal) (s : FDState)
    (q : String) (h : q ≠ qid) :
    assocFind (add_options qid opts s).possible_options q
      = assocFind s.possible_options q := by
  unfold add_options
  exact assocFind_assocSet_other _ _ _ _ h

theorem add_options_keys_mono (qid : String) (opts : List OptVal) (s : FDState)
    (q : String) (h : (assocFind s.possible_options q).isSome) :
    (assocFind (add_options qid opts s).possible_options q).isSome := by
  by_cases hq : q = qid
  · subst hq
    rw [add_options_find_self]
    rfl
  · rw [add_options_find_other _ _ _ _ hq]
    exact h

theorem replaceFirst_ne_nil (l : List OptVal) (p : OptVal → Bool) (y : OptVal)
    (h : l ≠ []) : replaceFirst l p y ≠ [] := by
  cases l with
  | nil => exact absurd rfl h
  | cons x xs =>
      unfold replaceFirst
      split <;> simp

theorem addIfAbsent_ne_nil_of (cur : List OptVal) (newOp : OptVal) (h : cur ≠ []) :
    addIfAbsent cur newOp ≠ [] := by
  unfold addIfAbsent
  split
  · exact h
  · simp

theorem addOne_ne_nil (cur : List OptVal) (newOp : OptVal) : addOne cur newOp ≠ [] := by
  unfold addOne
  split
  next ex hfind =>
    have hcur : cur ≠ [] := by
      intro hc
      subst hc
      simp [List.find?] at hfind
    split
    · exact replaceFirst_ne_nil _ _ _ hcur
    · exact replaceFirst_ne_nil _ _ _ hcur
    · split
      · exact hcur
      · exact addIfAbsent_ne_nil_of _ _ hcur
  next hfind =>
    cases cur with
    | nil => simp [addIfAbsent]
    | cons x xs => exact addIfAbsent_ne_nil_of _ _ (by simp)

theorem foldl_addOne_ne_nil_of_cur (opts : List OptVal) (cur : List OptVal) (h : cur ≠ []) :
    opts.foldl addOne cur ≠ [] := by
  induction opts generalizing cur with
  | nil => exact h
  | cons o os ih => exact ih _ (addOne_ne_nil cur o)

theorem foldl_addOne_ne_nil_of_opts (opts : List OptVal) (cur : List OptVal) (h : opts ≠ []) :
    opts.foldl addOne cur ≠ [] := by
  cases opts with
  | nil => exact absurd rfl h
  | cons o os => exact foldl_addOne_ne_nil_of_cur os _ (addOne_ne_nil cur o)

theorem add_options_nonempty_mono (qid : String) (opts : List OptVal) (s : FDState)
    (q : String) (h : nonemptyAt s q) : nonemptyAt (add_options qid opts s) q := by
  obtain ⟨l, hl, hne⟩ := h
  by_cases hq : q = qid
  · subst hq
    refine ⟨_, add_options_find_self _ _ _, ?_⟩
    rw [hl]
    exact foldl_addOne_ne_nil_of_cur _ _ hne
  · exact ⟨l, by rw [add_options_find_other _ _ _ _ hq]; exact hl, hne⟩

theorem add_options_nonempty_self (qid : String) (opts : List OptVal) (s : FDState)
    (h : opts ≠ []) : nonemptyAt (add_options qid opts s) qid :=
  ⟨_, add_options_find_self _ _ _, foldl_addOne_ne_nil_of_opts _ _ h⟩

theorem typeList_ne_nil (all : JObj) (t : JVal) (h : typeKeyOK all = true)
    (hf : jobjFind all "type" = some t) : typeList t ≠ [] := by
  intro hnil
  unfold typeKeyOK at h
  rw [hf] at h
  cases t <;> simp [typeList] at hnil
  case arr items =>
    cases items with
    | nil => simp at h
    | cons x xs => simp [jarrToList] at hnil

theorem addLit_ne_nil (acc : List OptVal) (v : JVal) : addLit acc v ≠ [] := by
  unfold addLit
  split
  · next hany =>
      intro hc
      subst hc
      simp at hany
  · simp

theorem litsOfEnum_ne_nil (vs : List JVal) : ∀ (acc out : List OptVal),
    litsOfEnum vs acc = .ok out → acc ≠ [] ∨ vs ≠ [] → out ≠ [] := by
  induction vs with
  | nil =>
      intro acc out h hne
      unfold litsOfEnum at h
      injection h with h
      subst h
      rcases hne with hne | hne
      · exact hne
      · exact absurd rfl hne
  | cons v vs ih =>
      intro acc out h _
      unfold litsOfEnum at h
      split at h
      · cases h
      · cases h
      · exact ih _ _ h (Or.inl (addLit_ne_nil _ _))

theorem handle_string_format_ne_nil (d : JObj) (opts : List OptVal)
    (he : enumKeyOK d = true) (h : handle_string_format d = .ok opts) : opts ≠ [] := by
  unfold handle_string_format at h
  split at h
  · injection h with h; subst h; simp
  · injection h with h; subst h; simp
  · injection h with h; subst h; simp
  · unfold enumKeyOK at he
    split at h
    · next items hfind =>
        rw [hfind] at he
        cases items with
        | nil => simp at he
        | cons x xs =>
            exact litsOfEnum_ne_nil _ _ _ h (Or.inr (by simp [jarrToList]))
    · next s hfind => rw [hfind] at he; simp at he
    · next fields hfind => rw [hfind] at he; simp at he
    · cases h
    · injection h with h; subst h; simp

theorem get_data_options_ne_nil (t : JVal) (d : JObj) (opts : List OptVal)
    (he : enumKeyOK d = true) (h : get_data_options t d = .ok opts) : opts ≠ [] := by
  unfold get_data_options at h
  split at h
  · injection h with h; subst h; simp
  · injection h with h; subst h; simp
  · injection h with h; subst h; simp
  · injection h with h; subst h; simp
  · exact handle_string_format_ne_nil d opts he h
  · cases h

theorem addAllTypes_ok_qids (all : JObj) (base : String) :
    ∀ (ts : List JVal) (s s' : FDState),
    addAllTypes all base ts s = .ok s' → s'.question_ids = s.question_ids := by
  intro ts
  induction ts with
  | nil =>
      intro s s' h
      unfold addAllTypes at h
      injection h with h
      rw [h]
  | cons t ts ih =>
      intro s s' h
      unfold addAllTypes at h
      split at h
      · cases h
      · rw [ih _ _ h, add_options_qids]

theorem addAllTypes_keys_mono (all : JObj) (base : String) :
    ∀ (ts : List JVal) (s s' : FDState) (q : String),
    addAllTypes all base ts s = .ok s' →
    (assocFind s.possible_options q).isSome →
    (assocFind s'.possible_options q).isSome := by
  intro ts
  induction ts with
  | nil =>
      intro s s' q h hq
      unfold addAllTypes at h
      injection h with h
      rw [← h]
      exact hq
  | cons t ts ih =>
      intro s s' q h hq
      unfold addAllTypes at h
      split at h
      · cases h
      · exact ih _ _ _ h (add_options_keys_mono _ _ _ _ hq)

theorem addAllTypes_nonempty_mono (all : JObj) (base : String) :
    ∀ (ts : List JVal) (s s' : FDState) (q : String),
    addAllTypes all base ts s = .ok s' → nonemptyAt s q → nonemptyAt s' q := by
  intro ts
  induction ts with
  | nil =>
      intro s s' q h hq
      unfold addAllTypes at h
      injection h with h
      rw [← h]
      exact hq
  | cons t ts ih =>
      intro s s' q h hq
      unfold addAllTypes at h
      split at h
      · cases h
      · exact ih _ _ _ h (add_options_nonempty_mono _ _ _ _ hq)

theorem addAllTypes_key_base (all : JObj) (base : String) (ts : List JVal)
    (s s' : FDState) (hts : ts ≠ []) (h : addAllTypes all base ts s = .ok s') :
    (assocFind s'.possible_options base).isSome := by
  cases ts with
  | nil => exact absurd rfl hts
  | cons t ts =>
      unfold addAllTypes at h
      split at h
      · cases h
      · refine addAllTypes_keys_mono all base ts _ _ _ h ?_
        rw [add_options_find_self]
        rfl

theorem addAllTypes_nonempty_base (all : JObj) (base : String) (ts : List JVal)
    (s s' : FDState) (he : enumKeyOK all = true) (hts : ts ≠ [])
    (h : addAllTypes all base ts s = .ok s') : nonemptyAt s' base := by
  cases ts with
  | nil => exact absurd rfl hts
  | cons t ts =>
      unfold addAllTypes at h
      split at h
      · cases h
      · next opts hgdo =>
          refine addAllTypes_nonempty_mono all base ts _ _ _ h ?_
          exact add_options_nonempty_self _ _ _ (get_data_options_ne_nil _ _ _ he hgdo)

theorem registerEnumBranch_qids (all : JObj) (base : String) (s s' : FDState)
    (h : registerEnumBranch all base s = .ok s') :
    ∀ q, q ∈ s'.question_ids ↔
      ((jobjFind all "enum").isSome ∧ q = base) ∨ q ∈ s.question_ids := by
  unfold registerEnumBranch at h
  split at h
  · next v hfind =>
      split at h
      · cases h
      · injection h with h
        intro q
        rw [← h]
        show q ∈ insertStr base (add_options base _ s).question_ids ↔ _
        rw [add_options_qids, mem_insertStr, hfind]
        simp [and_comm]
  · next hfind =>
      injection h with h
      intro q
      rw [← h, hfind]
      simp

theorem registerEnumBranch_keys_mono (all : JObj) (base : String) (s s' : FDState)
    (q : String) (h : registerEnumBranch all base s = .ok s')
    (hq : (assocFind s.possible_options q).isSome) :
    (assocFind s'.possible_options q).isSome := by
  unfold registerEnumBranch at h
  split at h
  · split at h
    · cases h
    · injection h with h
      rw [← h]
      exact add_options_keys_mono _ _ _ _ hq
  · injection h with h
    rw [← h]
    exact hq

theorem registerEnumBranch_key_base (all : JObj) (base : String) (s s' : FDState)
    (h : registerEnumBranch all base s = .ok s')
    (henum : (jobjFind all "enum").isSome) :
    (assocFind s'.possible_options base).isSome := by
  unfold registerEnumBranch at h
  split at h
  · split at h
    · cases h
    · injection h with h
      rw [← h]
      show (assocFind (add_options base _ s).possible_options base).isSome
      rw [add_options_find_self]
      rfl
  · next hfind => rw [hfind] at henum; cases henum

theorem registerEnumBranch_nonempty_mono (all : JObj) (base : String) (s s' : FDState)
    (q : String) (h : registerEnumBranch all base s = .ok s')
    (hq : nonemptyAt s q) : nonemptyAt s' q := by
  unfold registerEnumBranch at h
  split at h
  · split at h
    · cases h
    · injection h with h
      rw [← h]
      exact add_options_nonempty_mono _ _ _ _ hq
  · injection h with h
    rw [← h]
    exact hq

theorem registerEnumBranch_nonempty_base (all : JObj) (base : String) (s s' : FDState)
    (h : registerEnumBranch all base s = .ok s') (he : enumKeyOK all = true)
    (henum : (jobjFind all "enum").isSome) : nonemptyAt s' base := by
  unfold registerEnumBranch at h
  split at h
  · split at h
    · cases h
    · next opts hgdo =>
        injection h with h
        rw [← h]
        exact add_options_nonempty_self _ _ _ (get_data_options_ne_nil _ _ _ he hgdo)
  · next hfind => rw [hfind] at henum; cases henum

theorem registerBlock_qids (all : JObj) (base : String) (s s' : FDState)
    (h : registerBlock all base s = .ok s') :
    ∀ q, q ∈ s'.question_ids ↔ (registersB all = true ∧ q = base) ∨ q ∈ s.question_ids := by
  unfold registerBlock at h
  unfold registersB
  cases hf : jobjFind all "type" with
  | none =>
      rw [hf] at h
      simpa using registerEnumBranch_qids all base s s' h
  | some t =>
      rw [hf] at h
      dsimp only at h
      by_cases ht : t = .str "object"
      · rw [if_pos ht] at h
        simpa [ht] using registerEnumBranch_qids all base s s' h
      · rw [if_neg ht] at h
        split at h
        · cases h
        · next s1 hadd =>
            injection h with h
            intro q
            rw [← h]
            show q ∈ insertStr base s1.question_ids ↔ _
            rw [mem_insertStr, addAllTypes_ok_qids all base _ _ _ hadd]
            simp [ht, and_comm]

theorem registerBlock_keys_mono (all : JObj) (base : String) (s s' : FDState)
    (q : String) (h : registerBlock all base s = .ok s')
    (hq : (assocFind s.possible_options q).isSome) :
    (assocFind s'.possible_options q).isSome := by
  unfold registerBlock at h
  cases hf : jobjFind all "type" with
  | none =>
      rw [hf] at h
      exact registerEnumBranch_keys_mono all base s s' q h hq
  | some t =>
      rw [hf] at h
      dsimp only at h
      by_cases ht : t = .str "object"
      · rw [if_pos ht] at h
        exact registerEnumBranch_keys_mono all base s s' q h hq
      · rw [if_neg ht] at h
        split at h
        · cases h
        · next s1 hadd =>
            injection h with h
            rw [← h]
            exact addAllTypes_keys_mono all base (typeList t) s s1 q hadd hq

theorem registerBlock_key_base (all : JObj) (base : String) (s s' : FDState)
    (h : registerBlock all base s = .ok s') (htk : typeKeyOK all = true)
    (hreg : registersB all = true) :
    (assocFind s'.possible_options base).isSome := by
  unfold registerBlock at h
  unfold registersB at hreg
  cases hf : jobjFind all "type" with
  | none =>
      rw [hf] at h
      rw [hf] at hreg
      exact registerEnumBranch_key_base all base s s' h (by simpa using hreg)
  | some t =>
      rw [hf] at h
      rw [hf] at hreg
      dsimp only at h
      dsimp only at hreg
      by_cases ht : t = .str "object"
      · rw [if_pos ht] at h
        rw [if_pos ht] at hreg
        exact registerEnumBranch_key_base all base s s' h (by simpa using hreg)
      · rw [if_neg ht] at h
        split at h
        · cases h
        · next s1 hadd =>
            injection h with h
            rw [← h]
            exact addAllTypes_key_base all base (typeList t) s s1 (typeList_ne_nil all t htk hf) hadd

theorem registerBlock_nonempty_mono (all : JObj) (base : String) (s s' : FDState)
    (q : String) (h : registerBlock all base s = .ok s')
    (hq : nonemptyAt s q) : nonemptyAt s' q := by
  unfold registerBlock at h
  cases hf : jobjFind all "type" with
  | none =>
      rw [hf] at h
      exact registerEnumBranch_nonempty_mono all base s s' q h hq
  | some t =>
      rw [hf] at h
      dsimp only at h
      by_cases ht : t = .str "object"
      · rw [if_pos ht] at h
        exact registerEnumBranch_nonempty_mono all base s s' q h hq
      · rw [if_neg ht] at h
        split at h
        · cases h
        · next s1 hadd =>
            injection h with h
            rw [← h]
            exact addAllTypes_nonempty_mono all base (typeList t) s s1 q hadd hq

theorem registerBlock_nonempty_base (all : JObj) (base : String) (s s' : FDState)
    (h : registerBlock all base s = .ok s') (htk : typeKeyOK all = true)
    (hek : enumKeyOK all = true) (hreg : registersB all = true) :
    nonemptyAt s' base := by
  unfold registerBlock at h
  unfold registersB at hreg
  cases hf : jobjFind all "type" with
  | none =>
      rw [hf] at h
      rw [hf] at hreg
      exact registerEnumBranch_nonempty_base all base s s' h hek (by simpa using hreg)
  | some t =>
      rw [hf] at h
      rw [hf] at hreg
      dsimp only at h
      dsimp only at hreg
      by_cases ht : t = .str "object"
      · rw [if_pos ht] at h
        rw [if_pos ht] at hreg
        exact registerEnumBranch_nonempty_base all base s s' h hek (by simpa using hreg)
      · rw [if_neg ht] at h
        split at h
        · cases h
        · next s1 hadd =>
            injection h with h
            rw [← h]
            exact addAllTypes_nonempty_base all base (typeList t) s s1 hek (typeList_ne_nil all t htk hf) hadd

theorem mem_ite_singleton {b : Bool} {x q : String} :
    q ∈ (if b then [x] else []) ↔ b = true ∧ q = x := by
  cases b <;> simp

set_option maxHeartbeats 1000000 in
mutual
theorem extract_qids : ∀ (v : JVal) (base : String) (s s' : FDState),
    extract_question_ids v base s = .ok s' →
    ∀ q, q ∈ s'.question_ids ↔ q ∈ declPaths v base ∨ q ∈ s.question_ids
  | .obj fields, base, s, s', h, q => by
      simp only [extract_question_ids] at h
      simp only [declPaths]
      exact extractFields_qids fields fields base s s' h q
  | .arr items, base, s, s', h, q => by
      simp only [extract_question_ids] at h
      simp only [declPaths]
      exact extractArr_qids items base s s' h q
  | .null, base, s, s', h, q => by
      simp only [extract_question_ids] at h
      injection h with h
      subst h
      simp [declPaths]
  | .bool b, base, s, s', h, q => by
      simp only [extract_question_ids] at h
      injection h with h
      subst h
      simp [declPaths]
  | .int n, base, s, s', h, q => by
      simp only [extract_question_ids] at h
      injection h with h
      subst h
      simp [declPaths]
  | .float x, base, s, s', h, q => by
      simp only [extract_question_ids] at h
      injection h with h
      subst h
      simp [declPaths]
  | .str st, base, s, s', h, q => by
      simp only [extract_question_ids] at h
      injection h with h
      subst h
      simp [declPaths]

theorem extractFields_qids : ∀ (all rem : JObj) (base : String) (s s' : FDState),
    extractFields all rem base s = .ok s' →
    ∀ q, q ∈ s'.question_ids ↔ q ∈ declFields all rem base ∨ q ∈ s.question_ids
  | all, .nil, base, s, s', h, q => by
      simp only [extractFields] at h
      injection h with h
      subst h
      simp [declFields]
  | all, .cons k v tl, base, s, s', h, q => by
      simp only [extractFields] at h
      by_cases hk : k = "properties"
      · rw [if_pos hk] at h
        cases h1 : extractProps v base s with
        | error e => rw [h1] at h; cases h
        | ok s1 =>
            rw [h1] at h
            dsimp only at h
            cases h2 : registerBlock all base s1 with
            | error e => rw [h2] at h; cases h
            | ok s2 =>
                rw [h2] at h
                dsimp only at h
                have IH := extractFields_qids all tl base s2 s' h q
                have R := registerBlock_qids all base s1 s2 h2 q
                have P := extractProps_qids v base s s1 h1 q
                simp only [declFields, if_pos hk, List.mem_append, mem_ite_singleton]
                rw [IH, R, P]
                tauto
      · rw [if_neg hk] at h
        cases h1 : extract_question_ids v base s with
        | error e => rw [h1] at h; cases h
        | ok s1 =>
            rw [h1] at h
            dsimp only at h
            cases h2 : registerBlock all base s1 with
            | error e => rw [h2] at h; cases h
            | ok s2 =>
                rw [h2] at h
                dsimp only at h
                have IH := extractFields_qids all tl base s2 s' h q
                have R := registerBlock_qids all base s1 s2 h2 q
                have P := extract_qids v base s s1 h1 q
                simp only [declFields, if_neg hk, List.mem_append, mem_ite_singleton]
                rw [IH, R, P]
                tauto

theorem extractProps_qids : ∀ (v : JVal) (base : String) (s s' : FDState),
    extractProps v base s = .ok s' →
    ∀ q, q ∈ s'.question_ids ↔ q ∈ declProps v base ∨ q ∈ s.question_ids
  | .obj pfields, base, s, s', h, q => by
      simp only [extractProps] at h
      simp only [declProps]
      exact extractPropsList_qids pfields base s s' h q
  | .null, base, s, s', h, q => by simp only [extractProps] at h; cases h
  | .bool b, base, s, s', h, q => by simp only [extractProps] at h; cases h
  | .int n, base, s, s', h, q => by simp only [extractProps] at h; cases h
  | .float x, base, s, s', h, q => by simp only [extractProps] at h; cases h
  | .str st, base, s, s', h, q => by simp only [extractProps] at h; cases h
  | .arr items, base, s, s', h, q => by simp only [extractProps] at h; cases h

theorem extractPropsList_qids : ∀ (pf : JObj) (base : String) (s s' : FDState),
    extractPropsList pf base s = .ok s' →
    ∀ q, q ∈ s'.question_ids ↔ q ∈ declPropsList pf base ∨ q ∈ s.question_ids
  | .nil, base, s, s', h, q => by
      simp only [extractPropsList] at h
      injection h with h
      subst h
      simp [declPropsList]
  | .cons pid pv tl, base, s, s', h, q => by
      simp only [extractPropsList] at h
      cases h1 : extract_question_ids pv (extendPath base pid) s with
      | error e => rw [h1] at h; cases h
      | ok s1 =>
          rw [h1] at h
          dsimp only at h
          have IH := extractPropsList_qids tl base s1 s' h q
          have P := extract_qids pv (extendPath base pid) s s1 h1 q
          simp only [declPropsList, List.mem_append]
          rw [IH, P]
          tauto

theorem extractArr_qids : ∀ (items : JArr) (base : String) (s s' : FDState),
    extractArr items base s = .ok s' →
    ∀ q, q ∈ s'.question_ids ↔ q ∈ declArr items base ∨ q ∈ s.question_ids
  | .nil, base, s, s', h, q => by
      simp only [extractArr] at h
      injection h with h
      subst h
      simp [declArr]
  | .cons x xs, base, s, s', h, q => by
      simp only [extractArr] at h
      cases h1 : extract_question_ids x base s with
      | error e => rw [h1] at h; cases h
      | ok s1 =>
          rw [h1] at h
          dsimp only at h
          have IH := extractArr_qids xs base s1 s' h q
          have P := extract_qids x base s s1 h1 q
          simp only [declArr, List.mem_append]
          rw [IH, P]
          tauto
end

theorem registerBlock_keysInv (all : JObj) (base : String) (s s' : FDState)
    (htk : typeKeyOK all = true) (h : registerBlock all base s = .ok s')
    (hinv : keysInv s) : keysInv s' := by
  intro q hq
  rw [registerBlock_qids all base s s' h q] at hq
  rcases hq with ⟨hreg, hqb⟩ | hq
  · rw [hqb]
    exact registerBlock_key_base all base s s' h htk hreg
  · exact registerBlock_keys_mono all base s s' q h (hinv q hq)

set_option maxHeartbeats 1000000 in
mutual
theorem extract_keysInv : ∀ (v : JVal) (base : String) (s s' : FDState),
    allNodes typeKeyOK v = true → extract_question_ids v base s = .ok s' →
    keysInv s → keysInv s'
  | .obj fields, base, s, s', hok, h, hinv => by
      simp only [extract_question_ids] at h
      simp only [allNodes, Bool.and_eq_true] at hok
      exact extractFields_keysInv fields fields base s s' hok.1 hok.2 h hinv
  | .arr items, base, s, s', hok, h, hinv => by
      simp only [extract_question_ids] at h
      simp only [allNodes] at hok
      exact extractArr_keysInv items base s s' hok h hinv
  | .null, base, s, s', hok, h, hinv => by
      simp only [extract_question_ids] at h
      injection h with h
      subst h
      exact hinv
  | .bool b, base, s, s', hok, h, hinv => by
      simp only [extract_question_ids] at h
      injection h with h
      subst h
      exact hinv
  | .int n, base, s, s', hok, h, hinv => by
      simp only [extract_question_ids] at h
      injection h with h
      subst h
      exact hinv
  | .float x, base, s, s', hok, h, hinv => by
      simp only [extract_question_ids] at h
      injection h with h
      subst h
      exact hinv
  | .str st, base, s, s', hok, h, hinv => by
      simp only [extract_question_ids] at h
      injection h with h
      subst h
      exact hinv

theorem extractFields_keysInv : ∀ (all rem : JObj) (base : String) (s s' : FDState),
    typeKeyOK all = true → allNodesObj typeKeyOK rem = true →
    extractFields all rem base s = .ok s' → keysInv s → keysInv s'
  | all, .nil, base, s, s', _, _, h, hinv => by
      simp only [extractFields] at h
      injection h with h
      subst h
      exact hinv
  | all, .cons k v tl, base, s, s', htk, hrem, h, hinv => by
      simp only [extractFields] at h
      simp only [allNodesObj, Bool.and_eq_true] at hrem
      by_cases hk : k = "properties"
      · rw [if_pos hk] at h
        cases h1 : extractProps v base s with
        | error e => rw [h1] at h; cases h
        | ok s1 =>
            rw [h1] at h
            dsimp only at h
            cases h2 : registerBlock all base s1 with
            | error e => rw [h2] at h; cases h
            | ok s2 =>
                rw [h2] at h
                dsimp only at h
                have hinv1 := extractProps_keysInv v base s s1 hrem.1 h1 hinv
                have hinv2 := registerBlock_keysInv all base s1 s2 htk h2 hinv1
                exact extractFields_keysInv all tl base s2 s' htk hrem.2 h hinv2
      · rw [if_neg hk] at h
        cases h1 : extract_question_ids v base s with
        | error e => rw [h1] at h; cases h
        | ok s1 =>
            rw [h1] at h
            dsimp only at h
            cases h2 : registerBlock all base s1 with
            | error e => rw [h2] at h; cases h
            | ok s2 =>
                rw [h2] at h
                dsimp only at h
                have hinv1 := extract_keysInv v base s s1 hrem.1 h1 hinv
                have hinv2 := registerBlock_keysInv all base s1 s2 htk h2 hinv1
                exact extractFields_keysInv all tl base s2 s' htk hrem.2 h hinv2

theorem extractProps_keysInv : ∀ (v : JVal) (base : String) (s s' : FDState),
    allNodes typeKeyOK v = true → extractProps v base s = .ok s' →
    keysInv s → keysInv s'
  | .obj pfields, base, s, s', hok, h, hinv => by
      simp only [extractProps] at h
      simp only [allNodes, Bool.and_eq_true] at hok
      exact extractPropsList_keysInv pfields base s s' hok.2 h hinv
  | .null, base, s, s', hok, h, hinv => by simp only [extractProps] at h; cases h
  | .bool b, base, s, s', hok, h, hinv => by simp only [extractProps] at h; cases h
  | .int n, base, s, s', hok, h, hinv => by simp only [extractProps] at h; cases h
  | .float x, base, s, s', hok, h, hinv => by simp only [extractProps] at h; cases h
  | .str st, base, s, s', hok, h, hinv => by simp only [extractProps] at h; cases h
  | .arr items, base, s, s', hok, h, hinv => by simp only [extractProps] at h; cases h

theorem extractPropsList_keysInv : ∀ (pf : JObj) (base : String) (s s' : FDState),
    allNodesObj typeKeyOK pf = true → extractPropsList pf base s = .ok s' →
    keysInv s → keysInv s'
  | .nil, base, s, s', _, h, hinv => by
      simp only [extractPropsList] at h
      injection h with h
      subst h
      exact hinv
  | .cons pid pv tl, base, s, s', hok, h, hinv => by
      simp only [extractPropsList] at h
      simp only [allNodesObj, Bool.and_eq_true] at hok
      cases h1 : extract_question_ids pv (extendPath base pid) s with
      | error e => rw [h1] at h; cases h
      | ok s1 =>
          rw [h1] at h
          dsimp only at h
          have hinv1 := extract_keysInv pv (extendPath base pid) s s1 hok.1 h1 hinv
          exact extractPropsList_keysInv tl base s1 s' hok.2 h hinv1

theorem extractArr_keysInv : ∀ (items : JArr) (base : String) (s s' : FDState),
    allNodesArr typeKeyOK items = true → extractArr items base s = .ok s' →
    keysInv s → keysInv s'
  | .nil, base, s, s', _, h, hinv => by
      simp only [extractArr] at h
      injection h with h
      subst h
      exact hinv
  | .cons x xs, base, s, s', hok, h, hinv => by
      simp only [extractArr] at h
      simp only [allNodesArr, Bool.and_eq_true] at hok
      cases h1 : extract_question_ids x base s with
      | error e => rw [h1] at h; cases h
      | ok s1 =>
          rw [h1] at h
          dsimp only at h
          have hinv1 := extract_keysInv x base s s1 hok.1 h1 hinv
          exact extractArr_keysInv xs base s1 s' hok.2 h hinv1
end

set_option maxHeartbeats 1000000 in
mutual
theorem extract_nonempty : ∀ (v : JVal) (base : String) (s s' : FDState),
    allNodes (fun d => typeKeyOK d && enumKeyOK d) v = true →
    extract_question_ids v base s = .ok s' →
    (∀ q, nonemptyAt s q → nonemptyAt s' q) ∧
    (∀ q, q ∈ declPaths v base → nonemptyAt s' q)
  | .obj fields, base, s, s', hok, h => by
      simp only [extract_question_ids] at h
      simp only [allNodes, Bool.and_eq_true] at hok
      have := extractFields_nonempty fields fields base s s'
        (by simp [Bool.and_eq_true, hok.1.1, hok.1.2]) hok.2 h
      simpa only [declPaths] using this
  | .arr items, base, s, s', hok, h => by
      simp only [extract_question_ids] at h
      simp only [allNodes] at hok
      simpa only [declPaths] using extractArr_nonempty items base s s' hok h
  | .null, base, s, s', hok, h => by
      simp only [extract_question_ids] at h
      injection h with h
      subst h
      exact ⟨fun q hq => hq, by simp [declPaths]⟩
  | .bool b, base, s, s', hok, h => by
      simp only [extract_question_ids] at h
      injection h with h
      subst h
      exact ⟨fun q hq => hq, by simp [declPaths]⟩
  | .int n, base, s, s', hok, h => by
      simp only [extract_question_ids] at h
      injection h with h
      subst h
      exact ⟨fun q hq => hq, by simp [declPaths]⟩
  | .float x, base, s, s', hok, h => by
      simp only [extract_question_ids] at h
      injection h with h
      subst h
      exact ⟨fun q hq => hq, by simp [declPaths]⟩
  | .str st, base, s, s', hok, h => by
      simp only [extract_question_ids] at h
      injection h with h
      subst h
      exact ⟨fun q hq => hq, by simp [declPaths]⟩

theorem extractFields_nonempty : ∀ (all rem : JObj) (base : String) (s s' : FDState),
    (typeKeyOK all && enumKeyOK all) = true →
    allNodesObj (fun d => typeKeyOK d && enumKeyOK d) rem = true →
    extractFields all rem base s = .ok s' →
    (∀ q, nonemptyAt s q → nonemptyAt s' q) ∧
    (∀ q, q ∈ declFields all rem base → nonemptyAt s' q)
  | all, .nil, base, s, s', _, _, h => by
      simp only [extractFields] at h
      injection h with h
      subst h
      exact ⟨fun q hq => hq, by simp [declFields]⟩
  | all, .cons k v tl, base, s, s', hall, hrem, h => by
      simp only [extractFields] at h
      simp only [allNodesObj, Bool.and_eq_true] at hrem
      rw [Bool.and_eq_true] at hall
      by_cases hk : k = "properties"
      · rw [if_pos hk] at h
        cases h1 : extractProps v base s with
        | error e => rw [h1] at h; cases h
        | ok s1 =>
            rw [h1] at h
            dsimp only at h
            cases h2 : registerBlock all base s1 with
            | error e => rw [h2] at h; cases h
            | ok s2 =>
                rw [h2] at h
                dsimp only at h
                have P := extractProps_nonempty v base s s1 hrem.1 h1
                have IH := extractFields_nonempty all tl base s2 s'
                  (by rw [Bool.and_eq_true]; exact hall) hrem.2 h
                refine ⟨fun q hq =>
                  IH.1 q (registerBlock_nonempty_mono all base s1 s2 q h2 (P.1 q hq)), ?_⟩
                intro q hq
                simp only [declFields, if_pos hk, List.mem_append, mem_ite_singleton] at hq
                rcases hq with (hq | ⟨hreg, hqb⟩) | hq
                · exact IH.1 q (registerBlock_nonempty_mono all base s1 s2 q h2 (P.2 q hq))
                · rw [hqb]
                  exact IH.1 base
                    (registerBlock_nonempty_base all base s1 s2 h2 hall.1 hall.2 hreg)
                · exact IH.2 q hq
      · rw [if_neg hk] at h
        cases h1 : extract_question_ids v base s with
        | error e => rw [h1] at h; cases h
        | ok s1 =>
            rw [h1] at h
            dsimp only at h
            cases h2 : registerBlock all base s1 with
            | error e => rw [h2] at h; cases h
            | ok s2 =>
                rw [h2] at h
                dsimp only at h
                have P := extract_nonempty v base s s1 hrem.1 h1
                have IH := extractFields_nonempty all tl base s2 s'
                  (by rw [Bool.and_eq_true]; exact hall) hrem.2 h
                refine ⟨fun q hq =>
                  IH.1 q (registerBlock_nonempty_mono all base s1 s2 q h2 (P.1 q hq)), ?_⟩
                intro q hq
                simp only [declFields, if_neg hk, List.mem_append, mem_ite_singleton] at hq
                rcases hq with (hq | ⟨hreg, hqb⟩) | hq
                · exact IH.1 q (registerBlock_nonempty_mono all base s1 s2 q h2 (P.2 q hq))
                · rw [hqb]
                  exact IH.1 base
                    (registerBlock_nonempty_base all base s1 s2 h2 hall.1 hall.2 hreg)
                · exact IH.2 q hq

theorem extractProps_nonempty : ∀ (v : JVal) (base : String) (s s' : FDState),
    allNodes (fun d => typeKeyOK d && enumKeyOK d) v = true →
    extractProps v base s = .ok s' →
    (∀ q, nonemptyAt s q → nonemptyAt s' q) ∧
    (∀ q, q ∈ declProps v base → nonemptyAt s' q)
  | .obj pfields, base, s, s', hok, h => by
      simp only [extractProps] at h
      simp only [allNodes, Bool.and_eq_true] at hok
      simpa only [declProps] using extractPropsList_nonempty pfields base s s' hok.2 h
  | .null, base, s, s', hok, h => by simp only [extractProps] at h; cases h
  | .bool b, base, s, s', hok, h => by simp only [extractProps] at h; cases h
  | .int n, base, s, s', hok, h => by simp only [extractProps] at h; cases h
  | .float x, base, s, s', hok, h => by simp only [extractProps] at h; cases h
  | .str st, base, s, s', hok, h => by simp only [extractProps] at h; cases h
  | .arr items, base, s, s', hok, h => by simp only [extractProps] at h; cases h

theorem extractPropsList_nonempty : ∀ (pf : JObj) (base : String) (s s' : FDState),
    allNodesObj (fun d => typeKeyOK d && enumKeyOK d) pf = true →
    extractPropsList pf base s = .ok s' →
    (∀ q, nonemptyAt s q → nonemptyAt s' q) ∧
    (∀ q, q ∈ declPropsList pf base → nonemptyAt s' q)
  | .nil, base, s, s', _, h => by
      simp only [extractPropsList] at h
      injection h with h
      subst h
      exact ⟨fun q hq => hq, by simp [declPropsList]⟩
  | .cons pid pv tl, base, s, s', hok, h => by
      simp only [extractPropsList] at h
      simp only [allNodesObj, Bool.and_eq_true] at hok
      cases h1 : extract_question_ids pv (extendPath base pid) s with
      | error e => rw [h1] at h; cases h
      | ok s1 =>
          rw [h1] at h
          dsimp only at h
          have P := extract_nonempty pv (extendPath base pid) s s1 hok.1 h1
          have IH := extractPropsList_nonempty tl base s1 s' hok.2 h
          refine ⟨fun q hq => IH.1 q (P.1 q hq), ?_⟩
          intro q hq
          simp only [declPropsList, List.mem_append] at hq
          rcases hq with hq | hq
          · exact IH.1 q (P.2 q hq)
          · exact IH.2 q hq

theorem extractArr_nonempty : ∀ (items : JArr) (base : String) (s s' : FDState),
    allNodesArr (fun d => typeKeyOK d && enumKeyOK d) items = true →
    extractArr items base s = .ok s' →
    (∀ q, nonemptyAt s q → nonemptyAt s' q) ∧
    (∀ q, q ∈ declArr items base → nonemptyAt s' q)
  | .nil, base, s, s', _, h => by
      simp only [extractArr] at h
      injection h with h
      subst h
      exact ⟨fun q hq => hq, by simp [declArr]⟩
  | .cons x xs, base, s, s', hok, h => by
      simp only [extractArr] at h
      simp only [allNodesArr, Bool.and_eq_true] at hok
      cases h1 : extract_question_ids x base s with
      | error e => rw [h1] at h; cases h
      | ok s1 =>
          rw [h1] at h
          dsimp only at h
          have P := extract_nonempty x base s s1 hok.1 h1
          have IH := extractArr_nonempty xs base s1 s' hok.2 h
          refine ⟨fun q hq => IH.1 q (P.1 q hq), ?_⟩
          intro q hq
          simp only [declArr, List.mem_append] at hq
          rcases hq with hq | hq
          · exact IH.1 q (P.2 q hq)
          · exact IH.2 q hq
end

theorem validate_qa_duplicate (fd : FDState) (qa : QA) (rep : Report) (U : List String)
    (hmem : qa.id ∈ U) (hfmt : qa.id = rep.report_id ++ "_" ++ qa.question_id) :
    validate_qa fd qa rep U = (.error (.duplicateId qa.id), U) := by
  unfold validate_qa
  rw [if_neg (not_not_intro hfmt), if_pos hmem]

theorem validate_qa_sub (fd : FDState) (qa : QA) (rep : Report) (U : List String)
    (x : String) (hx : x ∈ U) : x ∈ (validate_qa fd qa rep U).2 := by
  unfold validate_qa
  by_cases h1 : qa.id ≠ rep.report_id ++ "_" ++ qa.question_id
  · rw [if_pos h1]
    exact hx
  · rw [if_neg h1]
    by_cases h2 : qa.id ∈ U
    · rw [if_pos h2]
      exact hx
    · rw [if_neg h2]
      by_cases h3 : qa.question_id ∉ fd.question_ids
      · rw [if_pos h3]
        exact hx
      · rw [if_neg h3]
        exact mem_insertStr.mpr (Or.inr hx)

theorem validate_qa_ok (fd : FDState) (qa : QA) (rep : Report) (U : List String)
    (h : (validate_qa fd qa rep U).1 = .ok ()) :
    (validate_qa fd qa rep U).2 = insertStr qa.id U := by
  unfold validate_qa at h ⊢
  by_cases h1 : qa.id ≠ rep.report_id ++ "_" ++ qa.question_id
  · rw [if_pos h1] at h
    exact absurd h (by simp)
  · rw [if_neg h1] at h ⊢
    by_cases h2 : qa.id ∈ U
    · rw [if_pos h2] at h
      exact absurd h (by simp)
    · rw [if_neg h2] at h ⊢
      by_cases h3 : qa.question_id ∉ fd.question_ids
      · rw [if_pos h3] at h
        exact absurd h (by simp)
      · rw [if_neg h3]

theorem validateQAList_sub (fd : FDState) (rep : Report) :
    ∀ (qas : List QA) (U : List String) (x : String), x ∈ U →
    x ∈ (validateQAList fd rep qas U).2 := by
  intro qas
  induction qas with
  | nil =>
      intro U x hx
      unfold validateQAList
      exact hx
  | cons qa rest ih =>
      intro U x hx
      have hx2 : x ∈ (validate_qa fd qa rep U).2 := validate_qa_sub fd qa rep U x hx
      unfold validateQAList
      cases hq : validate_qa fd qa rep U with
      | mk r u =>
          rw [hq] at hx2
          cases r with
          | error e => exact hx2
          | ok w => exact ih u x hx2

theorem validateQAList_ok_mem (fd : FDState) (rep : Report) :
    ∀ (qas : List QA) (U : List String),
    (validateQAList fd rep qas U).1 = .ok () →
    ∀ qa ∈ qas, qa.id ∈ (validateQAList fd rep qas U).2 := by
  intro qas
  induction qas with
  | nil =>
      intro U _ qa hqa
      cases hqa
  | cons qa0 rest ih =>
      intro U h qa hqa
      unfold validateQAList at h ⊢
      cases hq : validate_qa fd qa0 rep U with
      | mk r u =>
          rw [hq] at h
          cases r with
          | error e => exact absurd h (by simp)
          | ok w =>
              cases w
              dsimp only at h ⊢
              rcases List.mem_cons.mp hqa with rfl | hqa2
              · have hok : (validate_qa fd qa rep U).1 = .ok () := by rw [hq]
                have hins0 := validate_qa_ok fd qa rep U hok
                rw [hq] at hins0
                have hins : u = insertStr qa.id U := hins0
                refine validateQAList_sub fd rep rest u qa.id ?_
                rw [hins]
                exact mem_insertStr.mpr (Or.inl rfl)
              · exact ih u h qa hqa2

theorem validateReportCore_sets (fd : FDState) (sv : StructuralValidator) (rep : Report)
    (flag : Bool) (U : List String) (p : Paragraph)
    (hp : rep.paragraphs = [p])
    (hq : (validateQAList fd rep p.qas U).1 = .ok ()) :
    (validateReportCore fd sv rep flag U).2 = (validateQAList fd rep p.qas U).2 := by
  unfold validateReportCore
  rw [hp]
  dsimp only
  cases hv : validateQAList fd rep p.qas U with
  | mk r u =>
      rw [hv] at hq
      cases r with
      | error e => exact absurd hq (by simp)
      | ok w =>
          dsimp only
          split
          · rfl
          · split
            · rfl
            · split
              · split
                · rfl
                · split
                  · rfl
                  · rfl
              · rfl

theorem validate_report_sets (fd : FDState) (sv : StructuralValidator) (rep : Report)
    (flag : Bool) (U : List String) (p : Paragraph)
    (hU : U ≠ [])
    (hp : rep.paragraphs = [p])
    (hq : (validateQAList fd rep p.qas U).1 = .ok ()) :
    (validate_report fd sv rep flag U).2 = (validateQAList fd rep p.qas U).2 := by
  unfold validate_report
  dsimp only
  rw [if_neg hU]
  exact validateReportCore_sets fd sv rep flag U p hp hq

theorem validate_report_empty_set (fd : FDState) (sv : StructuralValidator)
    (rep : Report) (flag : Bool) :
    (validate_report fd sv rep flag []).2 = [] := by
  unfold validate_report
  simp

theorem validateDataSeq_spec (fd : FDState) (sv : StructuralValidator) (flag : Bool)
    (total : Nat) :
    ∀ (reports : List Report) (U : List String) (inv : Nat) (log : List (String × VErr)),
    (∀ e, validateDataSeq fd sv flag total reports U inv log = .error e →
        isCaught e = false) ∧
    (∀ out, validateDataSeq fd sv flag total reports U inv log = .ok out →
        out.summary = s!"{out.invalid_count}/{total} reports were invalid" ∧
        out.errorLog.length + inv = log.length + out.invalid_count ∧
        inv ≤ out.invalid_count ∧ out.invalid_count ≤ inv + reports.length) := by
  intro reports
  induction reports with
  | nil =>
      intro U inv log
      constructor
      · intro e he
        unfold validateDataSeq at he
        cases he
      · intro out hout
        unfold validateDataSeq at hout
        injection hout with hout
        subst hout
        refine ⟨rfl, ?_, le_refl _, ?_⟩ <;> simp
  | cons r rest ih =>
      intro U inv log
      unfold validateDataSeq
      cases hr : validate_report fd sv r flag U with
      | mk res u =>
          cases res with
          | ok w =>
              dsimp only
              refine ⟨(ih u inv log).1, ?_⟩
              intro out hout
              obtain ⟨hsum, hlen, hle, hub⟩ := (ih u inv log).2 out hout
              exact ⟨hsum, hlen, hle, by simp only [List.length_cons]; omega⟩
          | error e =>
              dsimp only
              by_cases hc : isCaught e = true
              · rw [if_pos hc]
                constructor
                · exact (ih u (inv + 1) (log ++ [(r.report_id, e)])).1
                · intro out hout
                  obtain ⟨hsum, hlen, hle, hub⟩ :=
                    (ih u (inv + 1) (log ++ [(r.report_id, e)])).2 out hout
                  rw [List.length_append, List.length_singleton] at hlen
                  exact ⟨hsum, by omega, by omega, by simp only [List.length_cons]; omega⟩
              · rw [if_neg hc]
                constructor
                · intro e2 he2
                  injection he2 with he2
                  subst he2
                  exact Bool.not_eq_true _ ▸ Bool.of_not_eq_true hc
                · intro out hout
                  cases hout

/- ### Claim C1 -/

/-- C1 counterexample: adding Integer(min=0,max=None) and then
Integer(min=None,max=10) for a fresh QuestionId leaves exactly one
FormInteger whose minimum is minus infinity and whose maximum is plus
infinity, not Integer(min=0,max=10): the merge takes min(0, -inf) for
the minimum and max(inf, 10) for the maximum. -/
theorem claim1_counterexample :
    assocFind (add_options "q" [.fint none (some (.int 10))]
        (add_options "q" [.fint (some (.int 0)) none]
          ⟨.null, [], []⟩)).possible_options "q"
      = some [.fint (some .ninf) (some .pinf)] ∧
    some [OptVal.fint (some PyNum.ninf) (some PyNum.pinf)]
      ≠ some [OptVal.fint (some (PyNum.int 0)) (some (PyNum.int 10))] := by
  constructor
  · rfl
  · decide

/-- C1 amended: for a QuestionId with no existing options, two Integer
declarations merge into exactly one Integer instance whose minimum is
the minimum of the two declared minimums with an absent bound treated
as minus infinity, and whose maximum is the maximum of the two declared
maximums with an absent or zero bound treated as plus infinity; for
Integer(0,None) and Integer(None,10) this gives the single entry
Integer(-inf,+inf), not Integer(0,10). -/
theorem claim1_amended (s : FDState) (q : String) (m1 M1 m2 M2 : Option PyNum)
    (h : assocFind s.possible_options q = none) :
    assocFind (add_options q [.fint m2 M2]
        (add_options q [.fint m1 M1] s)).possible_options q
      = some [.fint (some (pnMin (orNinf m1) (orNinf m2)))
                    (some (pnMax (orInfTruthy M1) (orInfTruthy M2)))] := by
  rw [add_options_find_self, add_options_find_self, h]
  rfl

/-- C1 witness: the amended merge theorem applied to the bounds of the
claim scenario on the empty state. -/
theorem claim1_witness :
    assocFind (add_options "q" [.fint none (some (.int 10))]
        (add_options "q" [.fint (some (.int 0)) none]
          ⟨.null, [], []⟩)).possible_options "q"
      = some [.fint (some (pnMin (orNinf (some (.int 0))) (orNinf none)))
                    (some (pnMax (orInfTruthy none) (orInfTruthy (some (.int 10)))))] :=
  claim1_amended ⟨.null, [], []⟩ "q" (some (.int 0)) none none (some (.int 10)) rfl

/- ### Claim C3 -/

/-- C3: a single answer passes the evidence check exactly when its text
is a non-empty string, its answer_start is a non-negative integer (an
int instance, which includes booleans), and the context slice of the
length of the text starting at the offset equals the text; in the fever
example the offset 10 passes while the off-by-one offsets 9 and 11
fail. -/
theorem claim3_single_answer :
    (∀ (text astart : JVal) (context : String),
      validate_single_answer text astart context = .ok () ↔
        ∃ (s : String) (n : Int), text = .str s ∧ intValOf astart = some n ∧
          1 ≤ s.length ∧ 0 ≤ n ∧ pySlice context.data n s.length = s.data)
    ∧ validate_single_answer (.str "fever") (.int 10) "headache, fever, chills" = .ok ()
    ∧ validate_single_answer (.str "fever") (.int 9) "headache, fever, chills"
        = .error (.evidenceMismatch "fever" 9)
    ∧ validate_single_answer (.str "fever") (.int 11) "headache, fever, chills"
        = .error (.evidenceMismatch "fever" 11) := by
  refine ⟨?_, rfl, rfl, rfl⟩
  intro text astart context
  constructor
  · intro h
    unfold validate_single_answer at h
    cases text with
    | str s =>
        cases hi : intValOf astart with
        | some n =>
            rw [hi] at h
            dsimp only at h
            by_cases hb : 1 ≤ s.length ∧ 0 ≤ n
            · rw [if_neg (not_not_intro hb)] at h
              by_cases hs : pySlice context.data n s.length = s.data
              · exact ⟨s, n, rfl, rfl, hb.1, hb.2, hs⟩
              · rw [if_pos hs] at h
                cases h
            · rw [if_pos hb] at h
              cases h
        | none =>
            rw [hi] at h
            dsimp only at h
            cases h
    | null => exact absurd h (by simp [intValOf])
    | bool b => exact absurd h (by cases b <;> simp [intValOf])
    | int n => exact absurd h (by simp [intValOf])
    | float x => exact absurd h (by simp [intValOf])
    | arr items => exact absurd h (by simp [intValOf])
    | obj fields => exact absurd h (by simp [intValOf])
  · rintro ⟨s, n, rfl, hi, hlen, hn, hsl⟩
    unfold validate_single_answer
    rw [hi]
    dsimp only
    rw [if_neg (not_not_intro ⟨hlen, hn⟩), if_neg (not_not_intro hsl)]

/-- C3 witness: the characterisation applied at a concrete answer. -/
theorem claim3_witness :
    validate_single_answer (.str "ab") (.int 1) "xaby" = .ok () :=
  (claim3_single_answer.1 (.str "ab") (.int 1) "xaby").mpr
    ⟨"ab", 1, rfl, rfl, by decide, by decide, by decide⟩

/- ### Claim C6 -/

/-- C6: FormDate.is_valid accepts exactly the strings that parse under
the strptime pattern (four-digit year, dash, one- or two-digit month,
dash, one- or two-digit day) to a real calendar date with year at least
one; in particular 2023-02-30 is rejected while 2023-02-28 is accepted,
and the leap day 2024-02-29 is accepted while 2023-02-29 is not. -/
theorem claim6_date :
    formDate_is_valid (.str "2023-02-30") = false
    ∧ formDate_is_valid (.str "2023-02-28") = true
    ∧ formDate_is_valid (.str "2024-02-29") = true
    ∧ formDate_is_valid (.str "2023-02-29") = false
    ∧ (∀ v : JVal, formDate_is_valid v = true ↔
        ∃ (s : String) (y m d : Nat), v = .str s ∧
          dateParse s.data = some (y, m, d) ∧ realDate y m d = true) := by
  refine ⟨by decide, by decide, by decide, by decide, ?_⟩
  intro v
  constructor
  · intro h
    unfold formDate_is_valid at h
    cases v with
    | str s =>
        dsimp only at h
        cases hp : dateParse s.data with
        | some t =>
            obtain ⟨y, m, d⟩ := t
            rw [hp] at h
            dsimp only at h
            exact ⟨s, y, m, d, rfl, hp, h⟩
        | none =>
            rw [hp] at h
            simp at h
    | null => simp at h
    | bool b => simp at h
    | int n => simp at h
    | float x => simp at h
    | arr items => simp at h
    | obj fields => simp at h
  · rintro ⟨s, y, m, d, rfl, hp, hr⟩
    unfold formDate_is_valid
    dsimp only
    rw [hp]
    exact hr

/-- C6 witness: the characterisation applied at a concrete date. -/
theorem claim6_witness : formDate_is_valid (.str "1999-12-31") = true :=
  (claim6_date.2.2.2.2 (.str "1999-12-31")).mpr
    ⟨"1999-12-31", 1999, 12, 31, rfl, by decide, by decide⟩

/- ### Claim C7 -/

/-- C7 counterexample: the float 5.0 is an integral number (its
rational value is the integer 5), yet FormInteger with no bounds
rejects it, because isinstance(5.0, int) is false. -/
theorem claim7_counterexample :
    formInteger_is_valid none none (.float 5) = false
    ∧ ratOf (.float 5) = some 5
    ∧ (5 : Rat).den = 1 := by
  refine ⟨by decide, by decide, by decide⟩

/-- C7 amended: FormInteger.is_valid accepts exactly the values of
Python int type (ints and booleans, since bool is a subtype of int)
whose value satisfies the declared bounds; integral floats such as 5.0
are rejected by the isinstance test. -/
theorem claim7_amended (minimum maximum : Option PyNum) (v : JVal) :
    formInteger_is_valid minimum maximum v = true ↔
      ∃ n : Int, intValOf v = some n ∧
        (∀ b, minimum = some b → pnLE b (.int n) = true) ∧
        (∀ b, maximum = some b → pnLE (.int n) b = true) := by
  unfold formInteger_is_valid
  cases hi : intValOf v with
  | none => simp
  | some n =>
      dsimp only
      rw [Bool.and_eq_true]
      constructor
      · intro h
        refine ⟨n, rfl, ?_, ?_⟩
        · intro b hb
          have h1 := h.1
          rw [hb] at h1
          exact h1
        · intro b hb
          have h2 := h.2
          rw [hb] at h2
          exact h2
      · rintro ⟨n2, hn2, h1, h2⟩
        injection hn2 with hn2
        subst hn2
        constructor
        · cases minimum with
          | none => rfl
          | some b => exact h1 b rfl
        · cases maximum with
          | none => rfl
          | some b => exact h2 b rfl

/-- C7 witness: the amended characterisation applied at value 3 with a
lower bound of 0. -/
theorem claim7_witness : formInteger_is_valid (some (.int 0)) none (.int 3) = true :=
  (claim7_amended (some (.int 0)) none (.int 3)).mpr
    ⟨3, rfl, fun b hb => by injection hb with hb; subst hb; decide,
      fun b hb => by cases hb⟩

/- ### Claim C8 -/

theorem pyEqOpt_lit_iff (w : JVal) (op : OptVal) :
    pyEqOpt (.lit w) op = true ↔ ∃ v, op = .lit v ∧ pyEq w v = true := by
  cases op <;> simp [pyEqOpt]

theorem isStrLit_iff (op : OptVal) :
    (match op with | OptVal.lit (.str _) => true | _ => false) = true ↔
      ∃ s, op = .lit (.str s) := by
  cases op with
  | lit v => cases v <;> simp
  | fint a b => simp
  | fnum a b => simp
  | fstr => simp
  | fdate => simp
  | ftime => simp
  | fdatetime => simp

/-- C8 counterexample: for a question declared with the integer enum
[1, 2] the flattener keeps the literal option 1; the "enum" query
returns false although a literal (non-typed) option is present, because
the code tests isinstance(op, str) and only string literals count; and
the "boolean" query returns true although neither True nor False was
ever declared, because Python set membership identifies True with 1. -/
theorem claim8_counterexample :
    formDefinitionInit schemaIntEnum = .ok (fdOf schemaIntEnum)
    ∧ assocFind (fdOf schemaIntEnum).possible_options "q" = some [.lit (.int 1)]
    ∧ question_includes_datatype (fdOf schemaIntEnum) "q" "enum" = some false
    ∧ question_includes_datatype (fdOf schemaIntEnum) "q" "boolean" = some true :=
  ⟨rfl, rfl, rfl, rfl⟩

/-- C8 amended: question_includes_datatype looks the question id up in
possible_options and tests the requested kind against the options list:
"boolean" holds when True or False is a member under Python equality
(so numeric literals equal to 1 or 0 also satisfy it), "null" when None
is a member, "enum" when some string literal option is present (numeric
and boolean literals do not count), and any other name when a typed
option with that data_type is present. -/
theorem claim8_amended :
    (∀ (fd : FDState) (qid dtype : String) (opts : List OptVal),
        assocFind fd.possible_options qid = some opts →
        question_includes_datatype fd qid dtype = some (optsInclude opts dtype))
    ∧ (∀ opts : List OptVal,
        (optsInclude opts "boolean" = true ↔
          ∃ v, OptVal.lit v ∈ opts ∧
            (pyEq (.bool true) v = true ∨ pyEq (.bool false) v = true))
        ∧ (optsInclude opts "null" = true ↔
            ∃ v, OptVal.lit v ∈ opts ∧ pyEq .null v = true)
        ∧ (optsInclude opts "enum" = true ↔ ∃ s, OptVal.lit (.str s) ∈ opts)
        ∧ (∀ dtype, dtype ≠ "boolean" → dtype ≠ "null" → dtype ≠ "enum" →
            (optsInclude opts dtype = true ↔
              ∃ op ∈ opts, optDataType op = some dtype))) := by
  constructor
  · intro fd qid dtype opts h
    unfold question_includes_datatype
    rw [h]
  · intro opts
    refine ⟨?_, ?_, ?_, ?_⟩
    · unfold optsInclude
      rw [if_pos rfl, Bool.or_eq_true, List.any_eq_true, List.any_eq_true]
      constructor
      · rintro (⟨op, hmem, hp⟩ | ⟨op, hmem, hp⟩)
        · obtain ⟨v, rfl, hv⟩ := (pyEqOpt_lit_iff _ _).mp hp
          exact ⟨v, hmem, Or.inl hv⟩
        · obtain ⟨v, rfl, hv⟩ := (pyEqOpt_lit_iff _ _).mp hp
          exact ⟨v, hmem, Or.inr hv⟩
      · rintro ⟨v, hmem, hv | hv⟩
        · exact Or.inl ⟨.lit v, hmem, (pyEqOpt_lit_iff _ _).mpr ⟨v, rfl, hv⟩⟩
        · exact Or.inr ⟨.lit v, hmem, (pyEqOpt_lit_iff _ _).mpr ⟨v, rfl, hv⟩⟩
    · unfold optsInclude
      rw [if_neg (by decide), if_pos rfl, List.any_eq_true]
      constructor
      · rintro ⟨op, hmem, hp⟩
        obtain ⟨v, rfl, hv⟩ := (pyEqOpt_lit_iff _ _).mp hp
        exact ⟨v, hmem, hv⟩
      · rintro ⟨v, hmem, hv⟩
        exact ⟨.lit v, hmem, (pyEqOpt_lit_iff _ _).mpr ⟨v, rfl, hv⟩⟩
    · unfold optsInclude
      rw [if_neg (by decide), if_neg (by decide), if_pos rfl, List.any_eq_true]
      constructor
      · rintro ⟨op, hmem, hp⟩
        obtain ⟨s, rfl⟩ := (isStrLit_iff op).mp hp
        exact ⟨s, hmem⟩
      · rintro ⟨s, hmem⟩
        exact ⟨.lit (.str s), hmem, (isStrLit_iff _).mpr ⟨s, rfl⟩⟩
    · intro dtype h1 h2 h3
      unfold optsInclude
      rw [if_neg h1, if_neg h2, if_neg h3]
      simp [List.any_eq_true]

/-- C8 witness: the amended characterisation applied to a singleton
string-literal options list. -/
theorem claim8_witness : optsInclude [OptVal.lit (.str "a")] "enum" = true :=
  ((claim8_amended.2 [OptVal.lit (.str "a")]).2.2.1).mpr ⟨"a", by simp⟩

/- ### Claim C2 -/

/-- C2 counterexample: a schema where question path a is a strict
prefix of question path a.b constructs successfully, but validating a
dataset whose one report answers a before a.b with the structural stage
enabled makes the nested-object rebuild hit a leaf where it expects a
mapping; the resulting TypeError is not a ValueError or
ValidationError, so validate_dataset does not catch it and the run
aborts instead of completing with a summary. -/
theorem claim2_counterexample :
    formDefinitionInit schemaPrefix = .ok (fdOf schemaPrefix)
    ∧ validate_dataset (fdOf schemaPrefix) svOk ⟨[reportPrefix]⟩ true
        = .error (.otherError "setdefault reached a non-mapping value") :=
  ⟨rfl, rfl⟩

/-- C2 amended: validate_dataset catches exactly the ValueError and
ValidationError failures of validate_report, converting each into one
logged record and an invalid-report counter increment and continuing;
when every failure in the run is of those kinds it completes and emits
the summary invalid/total reports were invalid, with one log record per
counted failure; a failure of any other kind (such as the TypeError
from the structural-stage rebuild when one question path is a strict
prefix of another) propagates and aborts the run. -/
theorem claim2_amended (fd : FDState) (sv : StructuralValidator) (ds : Dataset)
    (flag : Bool) :
    (∀ e, validate_dataset fd sv ds flag = .error e → isCaught e = false)
    ∧ (∀ out, validate_dataset fd sv ds flag = .ok out →
        out.summary = s!"{out.invalid_count}/{ds.data.length} reports were invalid"
        ∧ out.errorLog.length = out.invalid_count
        ∧ out.invalid_count ≤ ds.data.length) := by
  have h := validateDataSeq_spec fd sv flag ds.data.length ds.data [] 0 []
  unfold validate_dataset
  refine ⟨h.1, ?_⟩
  intro out hout
  obtain ⟨hsum, hlen, _, hub⟩ := h.2 out hout
  exact ⟨hsum, by simpa using hlen, by simpa using hub⟩

/-- C2 witness: the amended theorem applied to a one-report dataset
whose report fails the evidence stage with a caught ValueError, so the
run completes with one logged failure out of one report. -/
theorem claim2_witness :
    ("1/1 reports were invalid" : String)
      = s!"{(1 : Nat)}/{(Dataset.mk [reportBadEvidence]).data.length} reports were invalid"
    ∧ ([(("R1" : String), VErr.evidenceMismatch "zzz" 0)].length = 1)
    ∧ 1 ≤ (Dataset.mk [reportBadEvidence]).data.length := by
  have h := (claim2_amended (fdOf schemaQ1) svOk ⟨[reportBadEvidence]⟩ false).2
    ⟨1, [("R1", .evidenceMismatch "zzz" 0)], "1/1 reports were invalid"⟩ rfl
  exact ⟨h.1, h.2.1, h.2.2⟩

/- ### Claim C4 -/

/-- C4: the dataset that contains report R1 twice runs to completion
with ZERO invalid reports and an empty error log: the duplicate id
R1_q1 in the second report is never flagged, because the statement
`used_ids = used_ids or set()` replaces the falsy (empty) shared set
with a fresh local set on every call, so the set held by
validate_dataset stays empty for the whole run and no id ever persists
across reports.  The second conjunct shows the mechanism: an empty
caller set comes back unchanged from a report whose QA was accepted.
The third conjunct shows the intended check itself works: a QA whose
id is already in a (non-empty) set fails with a duplicate-ID error, so
the cross-report detection documented for the used_ids parameter is
defeated solely by the rebinding. -/
theorem claim4_code_bug :
    validate_dataset (fdOf schemaQ1) svOk dsDup false
      = .ok ⟨0, [], "0/2 reports were invalid"⟩
    ∧ (validate_report (fdOf schemaQ1) svOk reportR1 false []).2 = []
    ∧ validate_qa (fdOf schemaQ1) ⟨"R1_q1", "q1", .str "v", []⟩ reportR1 ["R1_q1"]
        = (.error (.duplicateId "R1_q1"), ["R1_q1"])
    ∧ formDefinitionInit schemaQ1 = .ok (fdOf schemaQ1) :=
  ⟨rfl, rfl, rfl, rfl⟩

/- ### Claim C9 -/

/-- C9 counterexample: a report whose QA passes the stage-2 check and
then fails the evidence stage, validated against an empty
caller-supplied used-ids set (the state of the shared set in every
dataset run), leaves that set EMPTY: the id does not remain inserted,
because `used_ids = used_ids or set()` replaced the falsy set with a
fresh local one.  Consequently a later report of the same run that
reuses the id R1_q1 is not flagged as a duplicate: the two-report
dataset completes with only the evidence failure, 1/2 invalid. -/
theorem claim9_counterexample :
    (validate_report (fdOf schemaQ1) svOk reportBadEvidence false []).1
      = .error (.evidenceMismatch "zzz" 0)
    ∧ (validate_report (fdOf schemaQ1) svOk reportBadEvidence false []).2 = []
    ∧ validate_dataset (fdOf schemaQ1) svOk ⟨[reportBadEvidence, reportR1]⟩ false
        = .ok ⟨1, [("R1", .evidenceMismatch "zzz" 0)], "1/2 reports were invalid"⟩ :=
  ⟨rfl, rfl, rfl⟩

/-- C9 amended: validate_report is not atomic with respect to the
caller-supplied used-ids set only when that set is non-empty (truthy):
then the set visible to the caller after the call equals the set
produced by stage 2 no matter how the later evidence, enumeration or
structural stages end, it contains the id of every QA of the paragraph,
and any later QA with a well-formed id equal to one of them fails the
identity stage with a duplicate-ID error against that set.  When the
caller supplies an empty set, as validate_dataset always effectively
does because the shared set can then never grow, the rebinding
`used_ids = used_ids or set()` substitutes a fresh local set and the
caller-supplied set is left unchanged, so nothing persists and the
later-report duplicate flagging never occurs in a dataset run. -/
theorem claim9_amended (fd : FDState) (sv : StructuralValidator) (rep : Report)
    (flag : Bool) (U : List String) (p : Paragraph)
    (hU : U ≠ [])
    (hp : rep.paragraphs = [p])
    (hq : (validateQAList fd rep p.qas U).1 = .ok ()) :
    ((validate_report fd sv rep flag U).2 = (validateQAList fd rep p.qas U).2
    ∧ (∀ qa ∈ p.qas, qa.id ∈ (validate_report fd sv rep flag U).2)
    ∧ (∀ (qa2 : QA) (rep2 : Report),
        qa2.id ∈ (validate_report fd sv rep flag U).2 →
        qa2.id = rep2.report_id ++ "_" ++ qa2.question_id →
        (validate_qa fd qa2 rep2 ((validate_report fd sv rep flag U).2)).1
          = .error (.duplicateId qa2.id)))
    ∧ (∀ (rep3 : Report) (flag3 : Bool),
        (validate_report fd sv rep3 flag3 []).2 = []) := by
  have hs := validate_report_sets fd sv rep flag U p hU hp hq
  refine ⟨⟨hs, ?_, ?_⟩, ?_⟩
  · intro qa hqa
    rw [hs]
    exact validateQAList_ok_mem fd rep p.qas U hq qa hqa
  · intro qa2 rep2 hmem hfmt
    rw [validate_qa_duplicate fd qa2 rep2 _ hmem hfmt]
  · intro rep3 flag3
    exact validate_report_empty_set fd sv rep3 flag3

/-- C9 witness: against a non-empty caller set the id of a QA that
passed stage 2 persists although the report fails the evidence stage,
while against the empty caller set nothing persists. -/
theorem claim9_witness :
    "R1_q1" ∈ (validate_report (fdOf schemaQ1) svOk reportBadEvidence false ["X"]).2
    ∧ (validate_report (fdOf schemaQ1) svOk reportBadEvidence false ["X"]).1
        = .error (.evidenceMismatch "zzz" 0)
    ∧ (validate_report (fdOf schemaQ1) svOk reportBadEvidence false []).2 = [] := by
  have h := claim9_amended (fdOf schemaQ1) svOk reportBadEvidence false ["X"]
    ⟨"ctx", [⟨"R1_q1", "q1", .str "v", [⟨"single", .str "zzz", .int 0⟩]⟩]⟩
    (by simp) rfl rfl
  refine ⟨?_, rfl, h.2 reportBadEvidence false⟩
  exact h.1.2.1 ⟨"R1_q1", "q1", .str "v", [⟨"single", .str "zzz", .int 0⟩]⟩
    (List.mem_singleton.mpr rfl)

/- ### Claim C5 -/

/-- C5 counterexample: in schemaContainer the node at path a is a pure
container (it has a "properties" key and neither "type" nor "enum" of
its own), yet a is registered as a QuestionId, because the walker also
recurses into the additionalProperties key of the node without
extending the path, and the string-typed dict found there registers the
path of the container. -/
theorem claim5_counterexample :
    schemaContainer
      = .obj (.cons "properties" (.obj (.cons "a" (.obj containerNodeA) .nil)) .nil)
    ∧ jobjFind containerNodeA "type" = none
    ∧ jobjFind containerNodeA "enum" = none
    ∧ (jobjFind containerNodeA "properties").isSome = true
    ∧ formDefinitionInit schemaContainer = .ok (fdOf schemaContainer)
    ∧ "a" ∈ (fdOf schemaContainer).question_ids :=
  ⟨rfl, rfl, rfl, rfl, rfl, by decide⟩

/-- C5 amended: when construction succeeds, the registered QuestionIds
are exactly the paths of declPaths, that is, the accumulated dot-paths
at which some dict node reached without extending the path (the path
only grows through "properties" children; every other key and every
list item is explored at the same path) declares a non-object "type" or
an "enum".  A container is therefore registered exactly when such a
declaring node sits at its path, for example under an
additionalProperties key.  When additionally every "type" list is
non-empty and every "enum" is a non-empty list, every registered path
owns a non-empty possible-options set. -/
theorem claim5_amended (schema : JVal) (s' : FDState)
    (hok : formDefinitionInit schema = .ok s') :
    (∀ q, q ∈ s'.question_ids ↔ q ∈ declPaths schema "")
    ∧ (allNodes (fun d => typeKeyOK d && enumKeyOK d) schema = true →
        ∀ q ∈ declPaths schema "", nonemptyAt s' q) := by
  constructor
  · intro q
    have h := extract_qids schema "" ⟨schema, [], []⟩ s' hok q
    simpa using h
  · intro hgood q hq
    exact (extract_nonempty schema "" ⟨schema, [], []⟩ s' hgood hok).2 q hq

/-- C5 witness: the characterisation applied to the one-question
string schema. -/
theorem claim5_witness :
    ("q1" ∈ (fdOf schemaQ1).question_ids ↔ "q1" ∈ declPaths schemaQ1 "")
    ∧ nonemptyAt (fdOf schemaQ1) "q1" := by
  have h := claim5_amended schemaQ1 (fdOf schemaQ1) rfl
  exact ⟨h.1 "q1", h.2 (by decide) "q1" (by decide)⟩

/- ### Claim C10 -/

/-- C10 counterexample: a leaf that declares the empty type list is
registered as a QuestionId although no possible-options entry is ever
created for it (the per-type loop runs zero times but the id is still
added), so the stage-4 lookup for a QA addressing it raises the
uncaught KeyError. -/
theorem claim10_counterexample :
    formDefinitionInit schemaEmptyType = .ok (fdOf schemaEmptyType)
    ∧ "q" ∈ (fdOf schemaEmptyType).question_ids
    ∧ assocFind (fdOf schemaEmptyType).possible_options "q" = none
    ∧ validate_enumeration_value_ids (fdOf schemaEmptyType) qaEmptyType
        = .error (.otherError "KeyError") :=
  ⟨rfl, by decide, rfl, rfl⟩

/-- C10 amended: for every schema in which no node declares "type" as
an empty list, a successful construction satisfies the invariant that
every registered QuestionId owns a possible-options entry, and
consequently the stage-4 enumeration check for a QA whose question id
passed the stage-2 membership test never raises the KeyError: it either
succeeds or reports an invalid enumeration value. -/
theorem claim10_amended (schema : JVal) (s' : FDState)
    (hgood : allNodes typeKeyOK schema = true)
    (hok : formDefinitionInit schema = .ok s') :
    keysInv s'
    ∧ (∀ qa : QA, qa.question_id ∈ s'.question_ids →
        validate_enumeration_value_ids s' qa = .ok ()
        ∨ validate_enumeration_value_ids s' qa
            = .error (.invalidEnumValue qa.question_id)) := by
  have hinv : keysInv s' :=
    extract_keysInv schema "" ⟨schema, [], []⟩ s' hgood hok (by intro q hq; cases hq)
  refine ⟨hinv, ?_⟩
  intro qa hqa
  have hks := hinv qa.question_id hqa
  unfold validate_enumeration_value_ids
  cases hfind : assocFind s'.possible_options qa.question_id with
  | none => rw [hfind] at hks; simp at hks
  | some opts =>
      dsimp only
      split
      · exact Or.inl rfl
      · exact Or.inr rfl

/-- C10 witness: the invariant and the stage-4 consequence on the
one-question string schema. -/
theorem claim10_witness :
    keysInv (fdOf schemaQ1)
    ∧ (validate_enumeration_value_ids (fdOf schemaQ1) ⟨"R1_q1", "q1", .str "v", []⟩
          = .ok ()
       ∨ validate_enumeration_value_ids (fdOf schemaQ1) ⟨"R1_q1", "q1", .str "v", []⟩
          = .error (.invalidEnumValue "q1")) := by
  have h := claim10_amended schemaQ1 (fdOf schemaQ1) (by decide) rfl
  exact ⟨h.1, h.2 ⟨"R1_q1", "q1", .str "v", []⟩ (by decide)⟩
